import Mathlib

/-!
Verification of a streaming UTF-8 decoder (a port of Hoehrmann's DFA) and of
its lazy range adapter.  The definitions below are a shallow embedding of
`src/utf-8/decoder.h` and `src/utf-8.h`: bytes and code points are natural
numbers, the C++ `std::optional` becomes `Option`, the decoder object becomes
a `Decoder` structure passed and returned explicitly.
-/

namespace Utf8

/-- The 256-entry byte-to-character-class table `utf8::decoder::char_classes_`. -/
def char_classes_ : List Nat := [
  0x0, 0x0, 0x0, 0x0, 0x0, 0x0, 0x0, 0x0, 0x0, 0x0, 0x0, 0x0, 0x0, 0x0, 0x0, 0x0, -- 00..0f
  0x0, 0x0, 0x0, 0x0, 0x0, 0x0, 0x0, 0x0, 0x0, 0x0, 0x0, 0x0, 0x0, 0x0, 0x0, 0x0, -- 10..1f
  0x0, 0x0, 0x0, 0x0, 0x0, 0x0, 0x0, 0x0, 0x0, 0x0, 0x0, 0x0, 0x0, 0x0, 0x0, 0x0, -- 20..2f
  0x0, 0x0, 0x0, 0x0, 0x0, 0x0, 0x0, 0x0, 0x0, 0x0, 0x0, 0x0, 0x0, 0x0, 0x0, 0x0, -- 30..3f
  0x0, 0x0, 0x0, 0x0, 0x0, 0x0, 0x0, 0x0, 0x0, 0x0, 0x0, 0x0, 0x0, 0x0, 0x0, 0x0, -- 40..4f
  0x0, 0x0, 0x0, 0x0, 0x0, 0x0, 0x0, 0x0, 0x0, 0x0, 0x0, 0x0, 0x0, 0x0, 0x0, 0x0, -- 50..5f
  0x0, 0x0, 0x0, 0x0, 0x0, 0x0, 0x0, 0x0, 0x0, 0x0, 0x0, 0x0, 0x0, 0x0, 0x0, 0x0, -- 60..6f
  0x0, 0x0, 0x0, 0x0, 0x0, 0x0, 0x0, 0x0, 0x0, 0x0, 0x0, 0x0, 0x0, 0x0, 0x0, 0x0, -- 70..7f
  0x1, 0x1, 0x1, 0x1, 0x1, 0x1, 0x1, 0x1, 0x1, 0x1, 0x1, 0x1, 0x1, 0x1, 0x1, 0x1, -- 80..8f
  0x9, 0x9, 0x9, 0x9, 0x9, 0x9, 0x9, 0x9, 0x9, 0x9, 0x9, 0x9, 0x9, 0x9, 0x9, 0x9, -- 90..9f
  0x7, 0x7, 0x7, 0x7, 0x7, 0x7, 0x7, 0x7, 0x7, 0x7, 0x7, 0x7, 0x7, 0x7, 0x7, 0x7, -- a0..af
  0x7, 0x7, 0x7, 0x7, 0x7, 0x7, 0x7, 0x7, 0x7, 0x7, 0x7, 0x7, 0x7, 0x7, 0x7, 0x7, -- b0..bf
  0x8, 0x8, 0x2, 0x2, 0x2, 0x2, 0x2, 0x2, 0x2, 0x2, 0x2, 0x2, 0x2, 0x2, 0x2, 0x2, -- c0..cf
  0x2, 0x2, 0x2, 0x2, 0x2, 0x2, 0x2, 0x2, 0x2, 0x2, 0x2, 0x2, 0x2, 0x2, 0x2, 0x2, -- d0..df
  0xa, 0x3, 0x3, 0x3, 0x3, 0x3, 0x3, 0x3, 0x3, 0x3, 0x3, 0x3, 0x3, 0x4, 0x3, 0x3, -- e0..ef
  0xb, 0x6, 0x6, 0x6, 0x5, 0x8, 0x8, 0x8, 0x8, 0x8, 0x8, 0x8, 0x8, 0x8, 0x8, 0x8] -- f0..ff

/-- Look up the character class of a byte (`char_classes_.at(byte)`). -/
def charClass (b : Nat) : Nat := char_classes_.getD b 0

/-- FSM states of the decoder (`utf8::decoder::state`). -/
inductive State
  | start
  | next1
  | next2
  | next3
  | next4
  | next5
  | next6
  | next7
  | error
deriving DecidableEq, Repr

/-- The numeric value of a state, as in the C++ `enum class state : uint8_t`. -/
def State.idx : State → Nat
  | .start => 0
  | .next1 => 1
  | .next2 => 2
  | .next3 => 3
  | .next4 => 4
  | .next5 => 5
  | .next6 => 6
  | .next7 => 7
  | .error => 8

def num_classes_ : Nat := 12

def replacement_char_ : Nat := 0xfffd

open State in
/-- The 8 x 12 transition table `utf8::decoder::fsm_` (rows: the non-error
states, columns: character classes 0..11). -/
def fsm_ : List State := [
  start, error, next1, next2, next4, next7, -- state::start
  next6, error, error, error, next3, next5, -- state::start
  error, start, error, error, error, error, -- state::next1
  error, start, error, start, error, error, -- state::next1
  error, next1, error, error, error, error, -- state::next2
  error, next1, error, next1, error, error, -- state::next2
  error, error, error, error, error, error, -- state::next3
  error, next1, error, error, error, error, -- state::next3
  error, next1, error, error, error, error, -- state::next4
  error, error, error, next1, error, error, -- state::next4
  error, error, error, error, error, error, -- state::next5
  error, next2, error, next2, error, error, -- state::next5
  error, next2, error, error, error, error, -- state::next6
  error, next2, error, next2, error, error, -- state::next6
  error, next2, error, error, error, error, -- state::next7
  error, error, error, error, error, error] -- state::next7

/-- `utf8::decoder::next_state`: transition-table lookup. -/
def next_state (s : State) (type : Nat) : State :=
  fsm_.getD (s.idx * num_classes_ + type) .error

/-- `utf8::decoder::start_byte_payload`: `byte & (0xff >> type)`. -/
def start_byte_payload (byte type : Nat) : Nat :=
  byte &&& (0xff >>> type)

/-- The pending-delivery tag `utf8::decoder::to_deliver`. -/
inductive ToDeliver
  | nothing
  | code_point
  | error
deriving DecidableEq, Repr

/-- The decoder's fields: `code_`, `state_`, `to_deliver_`. -/
structure Decoder where
  code_ : Nat
  state_ : State
  to_deliver_ : ToDeliver
deriving DecidableEq, Repr

/-- A default-constructed `utf8::decoder`. -/
def initDecoder : Decoder := ⟨0, .start, .nothing⟩

/-- `utf8::decoder::decode`, returning the optional decoded code point and the
updated decoder. -/
def Decoder.decode (d : Decoder) (byte : Nat) : Option Nat × Decoder :=
  let type := charClass byte
  let d0 : Decoder := { d with to_deliver_ := ToDeliver.nothing }
  let new_state := next_state d0.state_ type
  if new_state = State.error then
    if d0.state_ = State.start then
      (some replacement_char_, d0)
    else
      match next_state State.start type with
      | State.error =>
        (some replacement_char_,
          { d0 with state_ := State.start, to_deliver_ := ToDeliver.error })
      | State.start =>
        (some replacement_char_,
          { d0 with code_ := start_byte_payload byte type, state_ := State.start,
                    to_deliver_ := ToDeliver.code_point })
      | s =>
        (some replacement_char_,
          { d0 with code_ := start_byte_payload byte type, state_ := s })
  else
    let code := if d0.state_ = State.start then start_byte_payload byte type
                else (d0.code_ <<< 6) ||| (byte &&& 0x3f)
    let d1 : Decoder := { d0 with code_ := code, state_ := new_state }
    if new_state = State.start then (some code, d1) else (none, d1)

/-- `utf8::decoder::fetch`, returning the optional pending code point and the
updated decoder. -/
def Decoder.fetch (d : Decoder) : Option Nat × Decoder :=
  let code := if d.to_deliver_ = ToDeliver.code_point then some d.code_
              else if d.to_deliver_ = ToDeliver.error then some replacement_char_
              else none
  (code, { d with to_deliver_ := ToDeliver.nothing })

/-- `utf8::decoder::check_last_error` (a `const` member: no state change). -/
def Decoder.check_last_error (d : Decoder) : Option Nat :=
  if d.state_ ≠ State.start then some replacement_char_ else none

/-! ## The reference driving protocol

For each byte: call `decode`, emit its value if any, then call `fetch` and emit
its value if any; after the last byte, emit `check_last_error`'s value if any.
-/

/-- Drive the decoder over a byte list with the decode-then-fetch protocol,
collecting the emitted code points and the final decoder. -/
def driveRun (d : Decoder) : List Nat → List Nat × Decoder
  | [] => ([], d)
  | b :: rest =>
    let r1 := d.decode b
    let r2 := r1.2.fetch
    let r3 := driveRun r2.2 rest
    (r1.1.toList ++ r2.1.toList ++ r3.1, r3.2)

/-- The full output of the driving protocol, including the final
`check_last_error` emission. -/
def driveOut (d : Decoder) (B : List Nat) : List Nat :=
  (driveRun d B).1 ++ ((driveRun d B).2.check_last_error).toList

/-- Folding `decode` alone over a byte list (the decoder state trajectory;
`fetch` only clears the pending tag and never changes `code_` or `state_`). -/
def runDecoder (d : Decoder) (B : List Nat) : Decoder :=
  B.foldl (fun d b => (d.decode b).2) d

/-! ## Spec side: decoding with one replacement per maximal ill-formed subpart

`utf8Spec` follows the spec's words (the Unicode recommended practice): scan
the longest prefix that is a prefix of some well-formed sequence; a complete
sequence yields its scalar, an interrupted or truncated one yields exactly one
`U+FFFD` and the scan restarts at the interrupting byte.  Scalars are computed
arithmetically, independently of the decoder's bit manipulations.  The allowed
second-byte ranges embody the overlong, surrogate and `> U+10FFFF` guards. -/
def utf8Spec : List Nat → List Nat
  | [] => []
  | b :: rest =>
    if b < 0x80 then b :: utf8Spec rest
    else if b < 0xC2 then 0xFFFD :: utf8Spec rest
    else if b < 0xE0 then
      match rest with
      | [] => [0xFFFD]
      | b2 :: rest2 =>
        if 0x80 ≤ b2 ∧ b2 < 0xC0 then
          ((b - 0xC0) * 64 + (b2 - 0x80)) :: utf8Spec rest2
        else 0xFFFD :: utf8Spec (b2 :: rest2)
    else if b < 0xF0 then
      match rest with
      | [] => [0xFFFD]
      | b2 :: rest2 =>
        if (if b = 0xE0 then 0xA0 else 0x80) ≤ b2 ∧
            b2 < (if b = 0xED then 0xA0 else 0xC0) then
          match rest2 with
          | [] => [0xFFFD]
          | b3 :: rest3 =>
            if 0x80 ≤ b3 ∧ b3 < 0xC0 then
              ((b - 0xE0) * 4096 + (b2 - 0x80) * 64 + (b3 - 0x80)) :: utf8Spec rest3
            else 0xFFFD :: utf8Spec (b3 :: rest3)
        else 0xFFFD :: utf8Spec (b2 :: rest2)
    else if b < 0xF5 then
      match rest with
      | [] => [0xFFFD]
      | b2 :: rest2 =>
        if (if b = 0xF0 then 0x90 else 0x80) ≤ b2 ∧
            b2 < (if b = 0xF4 then 0x90 else 0xC0) then
          match rest2 with
          | [] => [0xFFFD]
          | b3 :: rest3 =>
            if 0x80 ≤ b3 ∧ b3 < 0xC0 then
              match rest3 with
              | [] => [0xFFFD]
              | b4 :: rest4 =>
                if 0x80 ≤ b4 ∧ b4 < 0xC0 then
                  ((b - 0xF0) * 262144 + (b2 - 0x80) * 4096 + (b3 - 0x80) * 64 +
                    (b4 - 0x80)) :: utf8Spec rest4
                else 0xFFFD :: utf8Spec (b4 :: rest4)
            else 0xFFFD :: utf8Spec (b3 :: rest3)
        else 0xFFFD :: utf8Spec (b2 :: rest2)
    else 0xFFFD :: utf8Spec rest

/-! ## The decoder invariant for reachable states -/

/-- Invariant of reachable decoder states: the pending code point (if any) is
an ASCII scalar, and the accumulator is bounded so that completing the
sequence always produces a scalar value (no surrogate, at most `U+10FFFF`). -/
def Inv (d : Decoder) : Prop :=
  (d.to_deliver_ = ToDeliver.code_point → d.code_ < 0x80 ∧ d.state_ = State.start) ∧
  (match d.state_ with
   | State.start => True
   | State.next1 => d.code_ < 0x4400 ∧ ¬(0x360 ≤ d.code_ ∧ d.code_ < 0x380)
   | State.next2 => d.code_ < 0x110 ∧ d.code_ ≠ 0xD
   | State.next3 => d.code_ = 0
   | State.next4 => d.code_ = 0xD
   | State.next5 => d.code_ = 0
   | State.next6 => 1 ≤ d.code_ ∧ d.code_ ≤ 3
   | State.next7 => d.code_ = 4
   | State.error => False)

/-! ## The decode view iterator (`src/utf-8.h`)

The iterator's byte-iterator/sentinel pair is modelled as the list of
remaining bytes (from `it_` to `end_`). -/

/-- The fields of `decode_view::iterator`. -/
structure Iter where
  rem : List Nat
  dec : Decoder
  code_ : Nat
  has_last_error_ : Bool
deriving DecidableEq, Repr

/-- The while loop in `decode_view::iterator::decode`: decode bytes until one
yields a value (leaving `it_` on that byte) or the input is exhausted. -/
def decodeMember (dec : Decoder) : List Nat → Decoder × List Nat × Option Nat
  | [] => (dec, [], none)
  | b :: rest =>
    match dec.decode b with
    | (some c, d1) => (d1, b :: rest, some c)
    | (none, d1) => decodeMember d1 rest

/-- `decode_view::iterator::decode` (the member function). -/
def iterDecode (it : Iter) : Iter :=
  match decodeMember it.dec it.rem with
  | (d, rem, code) =>
    if rem.isEmpty then
      match d.check_last_error with
      | some c => ⟨rem, d, c, true⟩
      | none => ⟨rem, d, it.code_, it.has_last_error_⟩
    else
      match code with
      | some c => ⟨rem, d, c, it.has_last_error_⟩
      | none => ⟨rem, d, it.code_, it.has_last_error_⟩

/-- `decode_view::iterator::try_decode_one_code_point`. -/
def try_decode_one (it : Iter) : Iter :=
  match it.dec.fetch with
  | (some c, d) => ⟨it.rem, d, c, it.has_last_error_⟩
  | (none, d) =>
    iterDecode ⟨if it.rem.isEmpty then it.rem else it.rem.tail, d, it.code_,
      it.has_last_error_⟩

/-- `decode_view::iterator::operator++`. -/
def iterNext (it : Iter) : Iter :=
  if it.has_last_error_ then ⟨it.rem, it.dec, it.code_, false⟩ else try_decode_one it

/-- `decode_view::iterator::operator==` with the end sentinel. -/
def iterAtEnd (it : Iter) : Bool :=
  it.rem.isEmpty && !it.has_last_error_

/-- Constructing `decode_view::begin()`: the initial fill. -/
def iterBegin (bytes : List Nat) : Iter :=
  iterDecode ⟨bytes, initDecoder, 0, false⟩

/-- Collect the code points yielded by the iterator (with fuel; the fuel
`2 * length + 2` used by `viewOut` is proved sufficient). -/
def collectFuel : Nat → Iter → List Nat
  | 0, _ => []
  | n + 1, it => if iterAtEnd it then [] else it.code_ :: collectFuel n (iterNext it)

/-- The code-point sequence produced by iterating the decode view. -/
def viewOut (bytes : List Nat) : List Nat :=
  collectFuel (2 * bytes.length + 2) (iterBegin bytes)

/-! ## Bitwise arithmetic helpers -/

/-- Or of a multiple of `2^k` with a value below `2^k` is addition. -/
theorem lor_mul_pow_add (a b k : Nat) (h : b < 2^k) : (2^k * a) ||| b = 2^k * a + b := by
  apply Nat.eq_of_testBit_eq
  intro j
  rw [Nat.testBit_lor]
  have h1 : (2^k * a + b).testBit j = if j < k then b.testBit j else a.testBit (j - k) :=
    Nat.testBit_mul_pow_two_add a h j
  have h2 : (2^k * a).testBit j = if j < k then false else a.testBit (j - k) := by
    simpa using Nat.testBit_mul_pow_two_add (b := 0) a (Nat.pos_pow_of_pos k (by norm_num)) j
  rw [h1, h2]
  by_cases hj : j < k
  · simp [hj]
  · have hb : b.testBit j = false := by
      apply Nat.testBit_lt_two_pow
      calc b < 2^k := h
        _ ≤ 2^j := Nat.pow_le_pow_right (by norm_num) (by omega)
    simp [hj, hb]

theorem shiftLeft6_lor (a m : Nat) (h : m < 64) : (a <<< 6) ||| m = 64 * a + m := by
  have ha : a <<< 6 = 2^6 * a := by rw [Nat.shiftLeft_eq]; ring
  rw [ha, lor_mul_pow_add a m 6 h]
  norm_num

theorem land63 (b : Nat) : b &&& 63 = b % 64 := Nat.and_pow_two_sub_one_eq_mod b 6

theorem land31 (b : Nat) : b &&& 31 = b % 32 := Nat.and_pow_two_sub_one_eq_mod b 5

theorem land15 (b : Nat) : b &&& 15 = b % 16 := Nat.and_pow_two_sub_one_eq_mod b 4

theorem land7 (b : Nat) : b &&& 7 = b % 8 := Nat.and_pow_two_sub_one_eq_mod b 3

theorem land3 (b : Nat) : b &&& 3 = b % 4 := Nat.and_pow_two_sub_one_eq_mod b 2

theorem land255 (b : Nat) : b &&& 255 = b % 256 := Nat.and_pow_two_sub_one_eq_mod b 8

/-! ## The character-class table, characterized by byte ranges -/

set_option maxRecDepth 4000 in
/-- The class table realizes exactly the byte-range partition from the spec. -/
theorem charClass_eq : ∀ b : Nat, b < 256 → charClass b =
    (if b < 0x80 then 0 else if b < 0x90 then 1 else if b < 0xA0 then 9
     else if b < 0xC0 then 7 else if b < 0xC2 then 8 else if b < 0xE0 then 2
     else if b = 0xE0 then 10 else if b = 0xED then 4 else if b < 0xF0 then 3
     else if b = 0xF0 then 11 else if b < 0xF4 then 6 else if b = 0xF4 then 5
     else 8) := by decide

theorem cc_ascii {b : Nat} (h : b < 0x80) : charClass b = 0 := by
  rw [charClass_eq b (by omega), if_pos h]

theorem cc_cont_lo {b : Nat} (h1 : 0x80 ≤ b) (h2 : b < 0x90) : charClass b = 1 := by
  rw [charClass_eq b (by omega), if_neg (by omega : ¬ b < 0x80), if_pos h2]

theorem cc_cont_mid {b : Nat} (h1 : 0x90 ≤ b) (h2 : b < 0xA0) : charClass b = 9 := by
  rw [charClass_eq b (by omega), if_neg (by omega : ¬ b < 0x80),
    if_neg (by omega : ¬ b < 0x90), if_pos h2]

theorem cc_cont_hi {b : Nat} (h1 : 0xA0 ≤ b) (h2 : b < 0xC0) : charClass b = 7 := by
  rw [charClass_eq b (by omega), if_neg (by omega : ¬ b < 0x80),
    if_neg (by omega : ¬ b < 0x90), if_neg (by omega : ¬ b < 0xA0), if_pos h2]

theorem cc_c0c1 {b : Nat} (h1 : 0xC0 ≤ b) (h2 : b < 0xC2) : charClass b = 8 := by
  rw [charClass_eq b (by omega), if_neg (by omega : ¬ b < 0x80),
    if_neg (by omega : ¬ b < 0x90), if_neg (by omega : ¬ b < 0xA0),
    if_neg (by omega : ¬ b < 0xC0), if_pos h2]

theorem cc_lead2 {b : Nat} (h1 : 0xC2 ≤ b) (h2 : b < 0xE0) : charClass b = 2 := by
  rw [charClass_eq b (by omega), if_neg (by omega : ¬ b < 0x80),
    if_neg (by omega : ¬ b < 0x90), if_neg (by omega : ¬ b < 0xA0),
    if_neg (by omega : ¬ b < 0xC0), if_neg (by omega : ¬ b < 0xC2), if_pos h2]

theorem cc_e0 : charClass 0xE0 = 10 := by
  rw [charClass_eq 0xE0 (by omega), if_neg (by omega : ¬ (0xE0:Nat) < 0x80),
    if_neg (by omega : ¬ (0xE0:Nat) < 0x90), if_neg (by omega : ¬ (0xE0:Nat) < 0xA0),
    if_neg (by omega : ¬ (0xE0:Nat) < 0xC0), if_neg (by omega : ¬ (0xE0:Nat) < 0xC2),
    if_neg (by omega : ¬ (0xE0:Nat) < 0xE0), if_pos rfl]

theorem cc_lead3 {b : Nat} (h1 : 0xE1 ≤ b) (h2 : b < 0xF0) (h3 : b ≠ 0xED) :
    charClass b = 3 := by
  rw [charClass_eq b (by omega), if_neg (by omega : ¬ b < 0x80),
    if_neg (by omega : ¬ b < 0x90), if_neg (by omega : ¬ b < 0xA0),
    if_neg (by omega : ¬ b < 0xC0), if_neg (by omega : ¬ b < 0xC2),
    if_neg (by omega : ¬ b < 0xE0), if_neg (by omega : ¬ b = 0xE0),
    if_neg h3, if_pos h2]

theorem cc_ed : charClass 0xED = 4 := by
  rw [charClass_eq 0xED (by omega), if_neg (by omega : ¬ (0xED:Nat) < 0x80),
    if_neg (by omega : ¬ (0xED:Nat) < 0x90), if_neg (by omega : ¬ (0xED:Nat) < 0xA0),
    if_neg (by omega : ¬ (0xED:Nat) < 0xC0), if_neg (by omega : ¬ (0xED:Nat) < 0xC2),
    if_neg (by omega : ¬ (0xED:Nat) < 0xE0), if_neg (by omega : ¬ (0xED:Nat) = 0xE0),
    if_pos rfl]

theorem cc_f0 : charClass 0xF0 = 11 := by
  rw [charClass_eq 0xF0 (by omega), if_neg (by omega : ¬ (0xF0:Nat) < 0x80),
    if_neg (by omega : ¬ (0xF0:Nat) < 0x90), if_neg (by omega : ¬ (0xF0:Nat) < 0xA0),
    if_neg (by omega : ¬ (0xF0:Nat) < 0xC0), if_neg (by omega : ¬ (0xF0:Nat) < 0xC2),
    if_neg (by omega : ¬ (0xF0:Nat) < 0xE0), if_neg (by omega : ¬ (0xF0:Nat) = 0xE0),
    if_neg (by omega : ¬ (0xF0:Nat) = 0xED), if_neg (by omega : ¬ (0xF0:Nat) < 0xF0),
    if_pos rfl]

theorem cc_lead4 {b : Nat} (h1 : 0xF1 ≤ b) (h2 : b < 0xF4) : charClass b = 6 := by
  rw [charClass_eq b (by omega), if_neg (by omega : ¬ b < 0x80),
    if_neg (by omega : ¬ b < 0x90), if_neg (by omega : ¬ b < 0xA0),
    if_neg (by omega : ¬ b < 0xC0), if_neg (by omega : ¬ b < 0xC2),
    if_neg (by omega : ¬ b < 0xE0), if_neg (by omega : ¬ b = 0xE0),
    if_neg (by omega : ¬ b = 0xED), if_neg (by omega : ¬ b < 0xF0),
    if_neg (by omega : ¬ b = 0xF0), if_pos h2]

theorem cc_f4 : charClass 0xF4 = 5 := by
  rw [charClass_eq 0xF4 (by omega), if_neg (by omega : ¬ (0xF4:Nat) < 0x80),
    if_neg (by omega : ¬ (0xF4:Nat) < 0x90), if_neg (by omega : ¬ (0xF4:Nat) < 0xA0),
    if_neg (by omega : ¬ (0xF4:Nat) < 0xC0), if_neg (by omega : ¬ (0xF4:Nat) < 0xC2),
    if_neg (by omega : ¬ (0xF4:Nat) < 0xE0), if_neg (by omega : ¬ (0xF4:Nat) = 0xE0),
    if_neg (by omega : ¬ (0xF4:Nat) = 0xED), if_neg (by omega : ¬ (0xF4:Nat) < 0xF0),
    if_neg (by omega : ¬ (0xF4:Nat) = 0xF0), if_neg (by omega : ¬ (0xF4:Nat) < 0xF4),
    if_pos rfl]

theorem cc_f5_ff {b : Nat} (h1 : 0xF5 ≤ b) (h2 : b < 0x100) : charClass b = 8 := by
  rw [charClass_eq b (by omega), if_neg (by omega : ¬ b < 0x80),
    if_neg (by omega : ¬ b < 0x90), if_neg (by omega : ¬ b < 0xA0),
    if_neg (by omega : ¬ b < 0xC0), if_neg (by omega : ¬ b < 0xC2),
    if_neg (by omega : ¬ b < 0xE0), if_neg (by omega : ¬ b = 0xE0),
    if_neg (by omega : ¬ b = 0xED), if_neg (by omega : ¬ b < 0xF0),
    if_neg (by omega : ¬ b = 0xF0), if_neg (by omega : ¬ b < 0xF4),
    if_neg (by omega : ¬ b = 0xF4)]

/-! ## Step lemmas for `decode`, `fetch` and `check_last_error` -/

theorem fetch_nothing (c : Nat) (s : State) :
    Decoder.fetch ⟨c, s, ToDeliver.nothing⟩ = (none, ⟨c, s, ToDeliver.nothing⟩) := rfl

theorem fetch_code (c : Nat) (s : State) :
    Decoder.fetch ⟨c, s, ToDeliver.code_point⟩ = (some c, ⟨c, s, ToDeliver.nothing⟩) := rfl

theorem fetch_err (c : Nat) (s : State) :
    Decoder.fetch ⟨c, s, ToDeliver.error⟩ =
      (some replacement_char_, ⟨c, s, ToDeliver.nothing⟩) := rfl

theorem cle_start (c : Nat) (p : ToDeliver) :
    Decoder.check_last_error ⟨c, State.start, p⟩ = none := rfl

theorem cle_not_start (c : Nat) (p : ToDeliver) (s : State) (h : s ≠ State.start) :
    Decoder.check_last_error ⟨c, s, p⟩ = some replacement_char_ := by
  simp [Decoder.check_last_error, h]

/-- At `start`, a class-0 byte decodes to itself. -/
theorem decode_start_ascii (c : Nat) (p : ToDeliver) (b : Nat) (hb : b < 0x80) :
    Decoder.decode ⟨c, State.start, p⟩ b = (some b, ⟨b, State.start, ToDeliver.nothing⟩) := by
  have hc : charClass b = 0 := cc_ascii hb
  simp only [Decoder.decode, hc]
  rw [show next_state State.start 0 = State.start from rfl]
  simp [start_byte_payload, Nat.shiftRight_zero, land255, Nat.mod_eq_of_lt (by omega : b < 256)]

/-- At `start`, a byte whose class errors from `start` yields one replacement. -/
theorem decode_start_err (c : Nat) (p : ToDeliver) (b : Nat)
    (hb : next_state State.start (charClass b) = State.error) :
    Decoder.decode ⟨c, State.start, p⟩ b =
      (some replacement_char_, ⟨c, State.start, ToDeliver.nothing⟩) := by
  simp only [Decoder.decode, hb]
  simp

/-- At `start`, a valid multi-byte lead moves to its `next` state with the
start-byte payload. -/
theorem decode_start_lead (c : Nat) (p : ToDeliver) (b : Nat) (s' : State)
    (hs : next_state State.start (charClass b) = s')
    (h1 : s' ≠ State.error) (h2 : s' ≠ State.start) :
    Decoder.decode ⟨c, State.start, p⟩ b =
      (none, ⟨start_byte_payload b (charClass b), s', ToDeliver.nothing⟩) := by
  simp only [Decoder.decode, hs]
  simp [h1, h2]

/-- Mid-sequence, a byte accepted by the FSM that completes the code point. -/
theorem decode_cont_complete (c : Nat) (p : ToDeliver) (b : Nat) (s : State)
    (h0 : s ≠ State.start)
    (hs : next_state s (charClass b) = State.start) :
    Decoder.decode ⟨c, s, p⟩ b =
      (some ((c <<< 6) ||| (b &&& 63)),
       ⟨(c <<< 6) ||| (b &&& 63), State.start, ToDeliver.nothing⟩) := by
  simp only [Decoder.decode, hs]
  simp [h0]

/-- Mid-sequence, a byte accepted by the FSM that moves to another `next` state. -/
theorem decode_cont_step (c : Nat) (p : ToDeliver) (b : Nat) (s s' : State)
    (h0 : s ≠ State.start)
    (hs : next_state s (charClass b) = s')
    (h1 : s' ≠ State.error) (h2 : s' ≠ State.start) :
    Decoder.decode ⟨c, s, p⟩ b =
      (none, ⟨(c <<< 6) ||| (b &&& 63), s', ToDeliver.nothing⟩) := by
  simp only [Decoder.decode, hs]
  simp [h0, h1, h2]

/-- Mid-sequence interruption by a byte that is invalid on its own:
two replacements, the second pending. -/
theorem decode_interrupt_stray (c : Nat) (p : ToDeliver) (b : Nat) (s : State)
    (h0 : s ≠ State.start)
    (hs : next_state s (charClass b) = State.error)
    (hb : next_state State.start (charClass b) = State.error) :
    Decoder.decode ⟨c, s, p⟩ b =
      (some replacement_char_, ⟨c, State.start, ToDeliver.error⟩) := by
  simp only [Decoder.decode, hs, hb]
  simp [h0]

/-- Mid-sequence interruption by an ASCII byte: replacement now, the completed
single-byte code point pending. -/
theorem decode_interrupt_ascii (c : Nat) (p : ToDeliver) (b : Nat) (s : State)
    (h0 : s ≠ State.start)
    (hs : next_state s (charClass b) = State.error)
    (hb : b < 0x80) :
    Decoder.decode ⟨c, s, p⟩ b =
      (some replacement_char_, ⟨b, State.start, ToDeliver.code_point⟩) := by
  have hc : charClass b = 0 := cc_ascii hb
  rw [hc] at hs
  simp only [Decoder.decode, hc, hs]
  rw [show next_state State.start 0 = State.start from rfl]
  simp [h0, start_byte_payload, Nat.shiftRight_zero, land255,
    Nat.mod_eq_of_lt (by omega : b < 256)]

/-- Mid-sequence interruption by a new multi-byte lead: replacement now, and
the decoder restarts at that lead byte. -/
theorem decode_interrupt_lead (c : Nat) (p : ToDeliver) (b : Nat) (s s' : State)
    (h0 : s ≠ State.start)
    (hs : next_state s (charClass b) = State.error)
    (hb : next_state State.start (charClass b) = s')
    (h1 : s' ≠ State.error) (h2 : s' ≠ State.start) :
    Decoder.decode ⟨c, s, p⟩ b =
      (some replacement_char_,
       ⟨start_byte_payload b (charClass b), s', ToDeliver.nothing⟩) := by
  cases s' with
  | error => exact absurd rfl h1
  | start => exact absurd rfl h2
  | next1 => simp only [Decoder.decode, hs, hb]; simp [h0]
  | next2 => simp only [Decoder.decode, hs, hb]; simp [h0]
  | next3 => simp only [Decoder.decode, hs, hb]; simp [h0]
  | next4 => simp only [Decoder.decode, hs, hb]; simp [h0]
  | next5 => simp only [Decoder.decode, hs, hb]; simp [h0]
  | next6 => simp only [Decoder.decode, hs, hb]; simp [h0]
  | next7 => simp only [Decoder.decode, hs, hb]; simp [h0]

/-! ## Composite per-byte lemmas for the driving protocol -/

theorem driveRun_cons (d : Decoder) (b : Nat) (rest : List Nat) :
    driveRun d (b :: rest) =
      ((d.decode b).1.toList ++ ((d.decode b).2.fetch).1.toList ++
         (driveRun ((d.decode b).2.fetch).2 rest).1,
       (driveRun ((d.decode b).2.fetch).2 rest).2) := rfl

theorem driveRun_start_ascii (c : Nat) (p : ToDeliver) (b : Nat) (rest : List Nat)
    (hb : b < 0x80) :
    driveRun ⟨c, State.start, p⟩ (b :: rest) =
      (b :: (driveRun ⟨b, State.start, ToDeliver.nothing⟩ rest).1,
       (driveRun ⟨b, State.start, ToDeliver.nothing⟩ rest).2) := by
  rw [driveRun_cons, decode_start_ascii c p b hb]
  simp [fetch_nothing]

theorem driveRun_start_err (c : Nat) (p : ToDeliver) (b : Nat) (rest : List Nat)
    (hb : next_state State.start (charClass b) = State.error) :
    driveRun ⟨c, State.start, p⟩ (b :: rest) =
      (replacement_char_ :: (driveRun ⟨c, State.start, ToDeliver.nothing⟩ rest).1,
       (driveRun ⟨c, State.start, ToDeliver.nothing⟩ rest).2) := by
  rw [driveRun_cons, decode_start_err c p b hb]
  simp [fetch_nothing]

theorem driveRun_start_lead (c : Nat) (p : ToDeliver) (b : Nat) (s' : State) (rest : List Nat)
    (hs : next_state State.start (charClass b) = s')
    (h1 : s' ≠ State.error) (h2 : s' ≠ State.start) :
    driveRun ⟨c, State.start, p⟩ (b :: rest) =
      driveRun ⟨start_byte_payload b (charClass b), s', ToDeliver.nothing⟩ rest := by
  rw [driveRun_cons, decode_start_lead c p b s' hs h1 h2]
  simp [fetch_nothing]

theorem driveRun_cont_complete (c : Nat) (p : ToDeliver) (b : Nat) (s : State) (rest : List Nat)
    (h0 : s ≠ State.start)
    (hs : next_state s (charClass b) = State.start) :
    driveRun ⟨c, s, p⟩ (b :: rest) =
      (((c <<< 6) ||| (b &&& 63)) ::
         (driveRun ⟨(c <<< 6) ||| (b &&& 63), State.start, ToDeliver.nothing⟩ rest).1,
       (driveRun ⟨(c <<< 6) ||| (b &&& 63), State.start, ToDeliver.nothing⟩ rest).2) := by
  rw [driveRun_cons, decode_cont_complete c p b s h0 hs]
  simp [fetch_nothing]

theorem driveRun_cont_step (c : Nat) (p : ToDeliver) (b : Nat) (s s' : State) (rest : List Nat)
    (h0 : s ≠ State.start)
    (hs : next_state s (charClass b) = s')
    (h1 : s' ≠ State.error) (h2 : s' ≠ State.start) :
    driveRun ⟨c, s, p⟩ (b :: rest) =
      driveRun ⟨(c <<< 6) ||| (b &&& 63), s', ToDeliver.nothing⟩ rest := by
  rw [driveRun_cons, decode_cont_step c p b s s' h0 hs h1 h2]
  simp [fetch_nothing]

theorem driveRun_interrupt_stray (c : Nat) (p : ToDeliver) (b : Nat) (s : State) (rest : List Nat)
    (h0 : s ≠ State.start)
    (hs : next_state s (charClass b) = State.error)
    (hb : next_state State.start (charClass b) = State.error) :
    driveRun ⟨c, s, p⟩ (b :: rest) =
      (replacement_char_ :: replacement_char_ ::
         (driveRun ⟨c, State.start, ToDeliver.nothing⟩ rest).1,
       (driveRun ⟨c, State.start, ToDeliver.nothing⟩ rest).2) := by
  rw [driveRun_cons, decode_interrupt_stray c p b s h0 hs hb]
  simp [fetch_err]

theorem driveRun_interrupt_ascii (c : Nat) (p : ToDeliver) (b : Nat) (s : State) (rest : List Nat)
    (h0 : s ≠ State.start)
    (hs : next_state s (charClass b) = State.error)
    (hb : b < 0x80) :
    driveRun ⟨c, s, p⟩ (b :: rest) =
      (replacement_char_ :: b :: (driveRun ⟨b, State.start, ToDeliver.nothing⟩ rest).1,
       (driveRun ⟨b, State.start, ToDeliver.nothing⟩ rest).2) := by
  rw [driveRun_cons, decode_interrupt_ascii c p b s h0 hs hb]
  simp [fetch_code]

theorem driveRun_interrupt_lead (c : Nat) (p : ToDeliver) (b : Nat) (s s' : State) (rest : List Nat)
    (h0 : s ≠ State.start)
    (hs : next_state s (charClass b) = State.error)
    (hb : next_state State.start (charClass b) = s')
    (h1 : s' ≠ State.error) (h2 : s' ≠ State.start) :
    driveRun ⟨c, s, p⟩ (b :: rest) =
      (replacement_char_ ::
         (driveRun ⟨start_byte_payload b (charClass b), s', ToDeliver.nothing⟩ rest).1,
       (driveRun ⟨start_byte_payload b (charClass b), s', ToDeliver.nothing⟩ rest).2) := by
  rw [driveRun_cons, decode_interrupt_lead c p b s s' h0 hs hb h1 h2]
  simp [fetch_nothing]

/-! ## The same composite lemmas at the `driveOut` level -/

theorem driveOut_eq (d : Decoder) (B : List Nat) :
    driveOut d B = (driveRun d B).1 ++ ((driveRun d B).2.check_last_error).toList := rfl

theorem driveOut_nil_start (c : Nat) (p : ToDeliver) :
    driveOut ⟨c, State.start, p⟩ [] = [] := rfl

theorem driveOut_nil_not_start (c : Nat) (p : ToDeliver) (s : State) (h : s ≠ State.start) :
    driveOut ⟨c, s, p⟩ [] = [replacement_char_] := by
  rw [driveOut_eq]
  simp [driveRun, cle_not_start c p s h]

theorem driveOut_start_ascii (c : Nat) (p : ToDeliver) (b : Nat) (rest : List Nat)
    (hb : b < 0x80) :
    driveOut ⟨c, State.start, p⟩ (b :: rest) =
      b :: driveOut ⟨b, State.start, ToDeliver.nothing⟩ rest := by
  rw [driveOut_eq, driveOut_eq, driveRun_start_ascii c p b rest hb]
  simp

theorem driveOut_start_err (c : Nat) (p : ToDeliver) (b : Nat) (rest : List Nat)
    (hb : next_state State.start (charClass b) = State.error) :
    driveOut ⟨c, State.start, p⟩ (b :: rest) =
      replacement_char_ :: driveOut ⟨c, State.start, ToDeliver.nothing⟩ rest := by
  rw [driveOut_eq, driveOut_eq, driveRun_start_err c p b rest hb]
  simp

theorem driveOut_start_lead (c : Nat) (p : ToDeliver) (b : Nat) (s' : State) (rest : List Nat)
    (hs : next_state State.start (charClass b) = s')
    (h1 : s' ≠ State.error) (h2 : s' ≠ State.start) :
    driveOut ⟨c, State.start, p⟩ (b :: rest) =
      driveOut ⟨start_byte_payload b (charClass b), s', ToDeliver.nothing⟩ rest := by
  rw [driveOut_eq, driveOut_eq, driveRun_start_lead c p b s' rest hs h1 h2]

theorem driveOut_cont_complete (c : Nat) (p : ToDeliver) (b : Nat) (s : State) (rest : List Nat)
    (h0 : s ≠ State.start)
    (hs : next_state s (charClass b) = State.start) :
    driveOut ⟨c, s, p⟩ (b :: rest) =
      ((c <<< 6) ||| (b &&& 63)) ::
        driveOut ⟨(c <<< 6) ||| (b &&& 63), State.start, ToDeliver.nothing⟩ rest := by
  rw [driveOut_eq, driveOut_eq, driveRun_cont_complete c p b s rest h0 hs]
  simp

theorem driveOut_cont_step (c : Nat) (p : ToDeliver) (b : Nat) (s s' : State) (rest : List Nat)
    (h0 : s ≠ State.start)
    (hs : next_state s (charClass b) = s')
    (h1 : s' ≠ State.error) (h2 : s' ≠ State.start) :
    driveOut ⟨c, s, p⟩ (b :: rest) =
      driveOut ⟨(c <<< 6) ||| (b &&& 63), s', ToDeliver.nothing⟩ rest := by
  rw [driveOut_eq, driveOut_eq, driveRun_cont_step c p b s s' rest h0 hs h1 h2]

theorem driveOut_interrupt_stray (c : Nat) (p : ToDeliver) (b : Nat) (s : State) (rest : List Nat)
    (h0 : s ≠ State.start)
    (hs : next_state s (charClass b) = State.error)
    (hb : next_state State.start (charClass b) = State.error) :
    driveOut ⟨c, s, p⟩ (b :: rest) =
      replacement_char_ :: replacement_char_ ::
        driveOut ⟨c, State.start, ToDeliver.nothing⟩ rest := by
  rw [driveOut_eq, driveOut_eq, driveRun_interrupt_stray c p b s rest h0 hs hb]
  simp

theorem driveOut_interrupt_ascii (c : Nat) (p : ToDeliver) (b : Nat) (s : State) (rest : List Nat)
    (h0 : s ≠ State.start)
    (hs : next_state s (charClass b) = State.error)
    (hb : b < 0x80) :
    driveOut ⟨c, s, p⟩ (b :: rest) =
      replacement_char_ :: b :: driveOut ⟨b, State.start, ToDeliver.nothing⟩ rest := by
  rw [driveOut_eq, driveOut_eq, driveRun_interrupt_ascii c p b s rest h0 hs hb]
  simp

theorem driveOut_interrupt_lead (c : Nat) (p : ToDeliver) (b : Nat) (s s' : State) (rest : List Nat)
    (h0 : s ≠ State.start)
    (hs : next_state s (charClass b) = State.error)
    (hb : next_state State.start (charClass b) = s')
    (h1 : s' ≠ State.error) (h2 : s' ≠ State.start) :
    driveOut ⟨c, s, p⟩ (b :: rest) =
      replacement_char_ ::
        driveOut ⟨start_byte_payload b (charClass b), s', ToDeliver.nothing⟩ rest := by
  rw [driveOut_eq, driveOut_eq, driveRun_interrupt_lead c p b s s' rest h0 hs hb h1 h2]
  simp

/-! ## Transitions on continuation bytes, per state -/

theorem ns_next1_cont {b : Nat} (h1 : 0x80 ≤ b) (h2 : b < 0xC0) :
    next_state State.next1 (charClass b) = State.start := by
  by_cases ha : b < 0x90
  · rw [cc_cont_lo h1 ha]; rfl
  · by_cases hm : b < 0xA0
    · rw [cc_cont_mid (by omega) hm]; rfl
    · rw [cc_cont_hi (by omega) h2]; rfl

theorem ns_next2_cont {b : Nat} (h1 : 0x80 ≤ b) (h2 : b < 0xC0) :
    next_state State.next2 (charClass b) = State.next1 := by
  by_cases ha : b < 0x90
  · rw [cc_cont_lo h1 ha]; rfl
  · by_cases hm : b < 0xA0
    · rw [cc_cont_mid (by omega) hm]; rfl
    · rw [cc_cont_hi (by omega) h2]; rfl

theorem ns_next3_cont {b : Nat} (h1 : 0xA0 ≤ b) (h2 : b < 0xC0) :
    next_state State.next3 (charClass b) = State.next1 := by
  rw [cc_cont_hi h1 h2]; rfl

theorem ns_next4_cont {b : Nat} (h1 : 0x80 ≤ b) (h2 : b < 0xA0) :
    next_state State.next4 (charClass b) = State.next1 := by
  by_cases ha : b < 0x90
  · rw [cc_cont_lo h1 ha]; rfl
  · rw [cc_cont_mid (by omega) h2]; rfl

theorem ns_next5_cont {b : Nat} (h1 : 0x90 ≤ b) (h2 : b < 0xC0) :
    next_state State.next5 (charClass b) = State.next2 := by
  by_cases hm : b < 0xA0
  · rw [cc_cont_mid h1 hm]; rfl
  · rw [cc_cont_hi (by omega) h2]; rfl

theorem ns_next6_cont {b : Nat} (h1 : 0x80 ≤ b) (h2 : b < 0xC0) :
    next_state State.next6 (charClass b) = State.next2 := by
  by_cases ha : b < 0x90
  · rw [cc_cont_lo h1 ha]; rfl
  · by_cases hm : b < 0xA0
    · rw [cc_cont_mid (by omega) hm]; rfl
    · rw [cc_cont_hi (by omega) h2]; rfl

theorem ns_next7_cont {b : Nat} (h1 : 0x80 ≤ b) (h2 : b < 0x90) :
    next_state State.next7 (charClass b) = State.next2 := by
  rw [cc_cont_lo h1 h2]; rfl

/-! ## Start-byte payloads per class -/

theorem payload0 (b : Nat) : start_byte_payload b 0 = b % 256 := by
  simp only [start_byte_payload]
  rw [show (0xff >>> 0 : Nat) = 255 from rfl, land255]

theorem payload2 (b : Nat) : start_byte_payload b 2 = b % 64 := by
  simp only [start_byte_payload]
  rw [show (0xff >>> 2 : Nat) = 63 from rfl, land63]

theorem payload3 (b : Nat) : start_byte_payload b 3 = b % 32 := by
  simp only [start_byte_payload]
  rw [show (0xff >>> 3 : Nat) = 31 from rfl, land31]

theorem payload4 (b : Nat) : start_byte_payload b 4 = b % 16 := by
  simp only [start_byte_payload]
  rw [show (0xff >>> 4 : Nat) = 15 from rfl, land15]

theorem payload5 (b : Nat) : start_byte_payload b 5 = b % 8 := by
  simp only [start_byte_payload]
  rw [show (0xff >>> 5 : Nat) = 7 from rfl, land7]

theorem payload6 (b : Nat) : start_byte_payload b 6 = b % 4 := by
  simp only [start_byte_payload]
  rw [show (0xff >>> 6 : Nat) = 3 from rfl, land3]

theorem payload10 (b : Nat) : start_byte_payload b 10 = 0 := by
  simp only [start_byte_payload]
  rw [show (0xff >>> 10 : Nat) = 0 from rfl]
  simp

theorem payload11 (b : Nat) : start_byte_payload b 11 = 0 := by
  simp only [start_byte_payload]
  rw [show (0xff >>> 11 : Nat) = 0 from rfl]
  simp

/-- Accumulating a continuation byte, in arithmetic form. -/
theorem cont_accum (a b : Nat) : (a <<< 6) ||| (b &&& 63) = 64 * a + b % 64 := by
  rw [land63, shiftLeft6_lor a (b % 64) (by omega)]

/-! ## Spec side: Unicode scalar values and their UTF-8 encoding

These two definitions follow the spec's words (RFC 3629 / Unicode): they are
the reference against which the decoder is compared, written independently of
the decoder's tables. -/

/-- A Unicode scalar value: `U+0000..U+10FFFF` excluding the surrogate range. -/
def ScalarValue (c : Nat) : Prop :=
  c < 0x110000 ∧ ¬(0xD800 ≤ c ∧ c ≤ 0xDFFF)

instance ScalarValue.decidable (c : Nat) : Decidable (ScalarValue c) := by
  unfold ScalarValue; infer_instance

/-- The standard UTF-8 encoding of one scalar value. -/
def Utf8Encode (c : Nat) : List Nat :=
  if c < 0x80 then [c]
  else if c < 0x800 then [0xC0 + c / 64, 0x80 + c % 64]
  else if c < 0x10000 then [0xE0 + c / 4096, 0x80 + c / 64 % 64, 0x80 + c % 64]
  else [0xF0 + c / 262144, 0x80 + c / 4096 % 64, 0x80 + c / 64 % 64, 0x80 + c % 64]

/-- Concatenated UTF-8 encoding of a sequence of scalar values. -/
def Utf8EncodeList : List Nat → List Nat
  | [] => []
  | c :: C => Utf8Encode c ++ Utf8EncodeList C

/-! ## Decoding one well-formed sequence -/

theorem driveRun_encode2 (x : Nat) (p : ToDeliver) (c : Nat) (rest : List Nat)
    (h1 : 0x80 ≤ c) (h2 : c < 0x800) :
    driveRun ⟨x, State.start, p⟩ ((0xC0 + c / 64) :: (0x80 + c % 64) :: rest) =
      (c :: (driveRun ⟨c, State.start, ToDeliver.nothing⟩ rest).1,
       (driveRun ⟨c, State.start, ToDeliver.nothing⟩ rest).2) := by
  have hc1 : charClass (0xC0 + c / 64) = 2 := cc_lead2 (by omega) (by omega)
  rw [driveRun_start_lead x p _ State.next1 _ (by rw [hc1]; rfl) (by simp) (by simp)]
  rw [hc1, payload2]
  rw [driveRun_cont_complete _ _ _ _ _ (by simp) (ns_next1_cont (by omega) (by omega))]
  rw [cont_accum]
  have he : 64 * ((0xC0 + c / 64) % 64) + (0x80 + c % 64) % 64 = c := by omega
  rw [he]

theorem driveRun_encode3 (x : Nat) (p : ToDeliver) (c : Nat) (rest : List Nat)
    (h1 : 0x800 ≤ c) (h2 : c < 0x10000) (h3 : ¬(0xD800 ≤ c ∧ c ≤ 0xDFFF)) :
    driveRun ⟨x, State.start, p⟩
        ((0xE0 + c / 4096) :: (0x80 + c / 64 % 64) :: (0x80 + c % 64) :: rest) =
      (c :: (driveRun ⟨c, State.start, ToDeliver.nothing⟩ rest).1,
       (driveRun ⟨c, State.start, ToDeliver.nothing⟩ rest).2) := by
  by_cases hA : c < 0x1000
  · have hb1 : 0xE0 + c / 4096 = 0xE0 := by omega
    rw [hb1]
    rw [driveRun_start_lead x p _ State.next3 _ (by rw [cc_e0]; rfl) (by simp) (by simp)]
    rw [cc_e0, payload10]
    rw [driveRun_cont_step _ _ _ _ State.next1 _ (by simp)
      (ns_next3_cont (by omega) (by omega)) (by simp) (by simp)]
    rw [cont_accum]
    rw [driveRun_cont_complete _ _ _ _ _ (by simp) (ns_next1_cont (by omega) (by omega))]
    rw [cont_accum]
    have he : 64 * (64 * 0 + (0x80 + c / 64 % 64) % 64) + (0x80 + c % 64) % 64 = c := by
      omega
    rw [he]
  · by_cases hB : c / 4096 = 13
    · have hb1 : 0xE0 + c / 4096 = 0xED := by omega
      have hcd : c < 0xD800 := by omega
      rw [hb1]
      rw [driveRun_start_lead x p _ State.next4 _ (by rw [cc_ed]; rfl) (by simp) (by simp)]
      rw [cc_ed, payload4]
      rw [driveRun_cont_step _ _ _ _ State.next1 _ (by simp)
        (ns_next4_cont (by omega) (by omega)) (by simp) (by simp)]
      rw [cont_accum]
      rw [driveRun_cont_complete _ _ _ _ _ (by simp) (ns_next1_cont (by omega) (by omega))]
      rw [cont_accum]
      have he : 64 * (64 * ((0xED : Nat) % 16) + (0x80 + c / 64 % 64) % 64) +
          (0x80 + c % 64) % 64 = c := by omega
      rw [he]
    · have hc1 : charClass (0xE0 + c / 4096) = 3 :=
        cc_lead3 (by omega) (by omega) (by omega)
      rw [driveRun_start_lead x p _ State.next2 _ (by rw [hc1]; rfl) (by simp) (by simp)]
      rw [hc1, payload3]
      rw [driveRun_cont_step _ _ _ _ State.next1 _ (by simp)
        (ns_next2_cont (by omega) (by omega)) (by simp) (by simp)]
      rw [cont_accum]
      rw [driveRun_cont_complete _ _ _ _ _ (by simp) (ns_next1_cont (by omega) (by omega))]
      rw [cont_accum]
      have he : 64 * (64 * ((0xE0 + c / 4096) % 32) + (0x80 + c / 64 % 64) % 64) +
          (0x80 + c % 64) % 64 = c := by omega
      rw [he]

theorem driveRun_encode4 (x : Nat) (p : ToDeliver) (c : Nat) (rest : List Nat)
    (h1 : 0x10000 ≤ c) (h2 : c < 0x110000) :
    driveRun ⟨x, State.start, p⟩
        ((0xF0 + c / 262144) :: (0x80 + c / 4096 % 64) ::
          (0x80 + c / 64 % 64) :: (0x80 + c % 64) :: rest) =
      (c :: (driveRun ⟨c, State.start, ToDeliver.nothing⟩ rest).1,
       (driveRun ⟨c, State.start, ToDeliver.nothing⟩ rest).2) := by
  by_cases hA : c < 0x40000
  · have hb1 : 0xF0 + c / 262144 = 0xF0 := by omega
    rw [hb1]
    rw [driveRun_start_lead x p _ State.next5 _ (by rw [cc_f0]; rfl) (by simp) (by simp)]
    rw [cc_f0, payload11]
    rw [driveRun_cont_step _ _ _ _ State.next2 _ (by simp)
      (ns_next5_cont (by omega) (by omega)) (by simp) (by simp)]
    rw [cont_accum]
    rw [driveRun_cont_step _ _ _ _ State.next1 _ (by simp)
      (ns_next2_cont (by omega) (by omega)) (by simp) (by simp)]
    rw [cont_accum]
    rw [driveRun_cont_complete _ _ _ _ _ (by simp) (ns_next1_cont (by omega) (by omega))]
    rw [cont_accum]
    have he : 64 * (64 * (64 * 0 + (0x80 + c / 4096 % 64) % 64) +
        (0x80 + c / 64 % 64) % 64) + (0x80 + c % 64) % 64 = c := by omega
    rw [he]
  · by_cases hB : 0x100000 ≤ c
    · have hb1 : 0xF0 + c / 262144 = 0xF4 := by omega
      rw [hb1]
      rw [driveRun_start_lead x p _ State.next7 _ (by rw [cc_f4]; rfl) (by simp) (by simp)]
      rw [cc_f4, payload5]
      rw [driveRun_cont_step _ _ _ _ State.next2 _ (by simp)
        (ns_next7_cont (by omega) (by omega)) (by simp) (by simp)]
      rw [cont_accum]
      rw [driveRun_cont_step _ _ _ _ State.next1 _ (by simp)
        (ns_next2_cont (by omega) (by omega)) (by simp) (by simp)]
      rw [cont_accum]
      rw [driveRun_cont_complete _ _ _ _ _ (by simp) (ns_next1_cont (by omega) (by omega))]
      rw [cont_accum]
      have he : 64 * (64 * (64 * ((0xF4 : Nat) % 8) + (0x80 + c / 4096 % 64) % 64) +
          (0x80 + c / 64 % 64) % 64) + (0x80 + c % 64) % 64 = c := by omega
      rw [he]
    · have hc1 : charClass (0xF0 + c / 262144) = 6 := cc_lead4 (by omega) (by omega)
      rw [driveRun_start_lead x p _ State.next6 _ (by rw [hc1]; rfl) (by simp) (by simp)]
      rw [hc1, payload6]
      rw [driveRun_cont_step _ _ _ _ State.next2 _ (by simp)
        (ns_next6_cont (by omega) (by omega)) (by simp) (by simp)]
      rw [cont_accum]
      rw [driveRun_cont_step _ _ _ _ State.next1 _ (by simp)
        (ns_next2_cont (by omega) (by omega)) (by simp) (by simp)]
      rw [cont_accum]
      rw [driveRun_cont_complete _ _ _ _ _ (by simp) (ns_next1_cont (by omega) (by omega))]
      rw [cont_accum]
      have he : 64 * (64 * (64 * ((0xF0 + c / 262144) % 4) + (0x80 + c / 4096 % 64) % 64) +
          (0x80 + c / 64 % 64) % 64) + (0x80 + c % 64) % 64 = c := by omega
      rw [he]

/-- Decoding the encoding of one scalar value from `start` emits exactly that
scalar and returns to `start`. -/
theorem driveRun_encode (x : Nat) (p : ToDeliver) (c : Nat) (hc : ScalarValue c)
    (rest : List Nat) :
    driveRun ⟨x, State.start, p⟩ (Utf8Encode c ++ rest) =
      (c :: (driveRun ⟨c, State.start, ToDeliver.nothing⟩ rest).1,
       (driveRun ⟨c, State.start, ToDeliver.nothing⟩ rest).2) := by
  obtain ⟨hlt, hsur⟩ := hc
  by_cases h1 : c < 0x80
  · simp only [Utf8Encode, if_pos h1, List.cons_append, List.nil_append]
    exact driveRun_start_ascii x p c rest h1
  · by_cases h2 : c < 0x800
    · simp only [Utf8Encode, if_neg h1, if_pos h2, List.cons_append, List.nil_append]
      exact driveRun_encode2 x p c rest (by omega) h2
    · by_cases h3 : c < 0x10000
      · simp only [Utf8Encode, if_neg h1, if_neg h2, if_pos h3, List.cons_append,
          List.nil_append]
        exact driveRun_encode3 x p c rest (by omega) h3 hsur
      · simp only [Utf8Encode, if_neg h1, if_neg h2, if_neg h3, List.cons_append,
          List.nil_append]
        exact driveRun_encode4 x p c rest (by omega) hlt

/-! ## Error transitions, characterized by byte ranges -/

theorem ns_start_err_cont {b : Nat} (h1 : 0x80 ≤ b) (h2 : b < 0xC2) :
    next_state State.start (charClass b) = State.error := by
  by_cases ha : b < 0x90
  · rw [cc_cont_lo h1 ha]; rfl
  · by_cases hm : b < 0xA0
    · rw [cc_cont_mid (by omega) hm]; rfl
    · by_cases hh : b < 0xC0
      · rw [cc_cont_hi (by omega) hh]; rfl
      · rw [cc_c0c1 (by omega) h2]; rfl

theorem ns_start_err_f5 {b : Nat} (h1 : 0xF5 ≤ b) (h2 : b < 0x100) :
    next_state State.start (charClass b) = State.error := by
  rw [cc_f5_ff h1 h2]; rfl

/-- Inverse characterization of the continuation classes, together with the
bound `charClass b < 12`. -/
theorem cc_inv_cont {b : Nat} (hb : b < 256) :
    charClass b < 12 ∧
    (charClass b = 1 ↔ (0x80 ≤ b ∧ b < 0x90)) ∧
    (charClass b = 9 ↔ (0x90 ≤ b ∧ b < 0xA0)) ∧
    (charClass b = 7 ↔ (0xA0 ≤ b ∧ b < 0xC0)) := by
  by_cases h0 : b < 0x80
  · rw [cc_ascii h0]; omega
  by_cases h1 : b < 0x90
  · rw [cc_cont_lo (by omega) h1]; omega
  by_cases h2 : b < 0xA0
  · rw [cc_cont_mid (by omega) h2]; omega
  by_cases h3 : b < 0xC0
  · rw [cc_cont_hi (by omega) h3]; omega
  by_cases h4 : b < 0xC2
  · rw [cc_c0c1 (by omega) h4]; omega
  by_cases h5 : b < 0xE0
  · rw [cc_lead2 (by omega) h5]; omega
  by_cases h6 : b = 0xE0
  · subst h6; rw [cc_e0]; omega
  by_cases h7 : b = 0xED
  · subst h7; rw [cc_ed]; omega
  by_cases h8 : b < 0xF0
  · rw [cc_lead3 (by omega) h8 h7]; omega
  by_cases h9 : b = 0xF0
  · subst h9; rw [cc_f0]; omega
  by_cases h10 : b < 0xF4
  · rw [cc_lead4 (by omega) h10]; omega
  by_cases h11 : b = 0xF4
  · subst h11; rw [cc_f4]; omega
  · rw [cc_f5_ff (by omega) hb]; omega

theorem ns_row1_err :
    ∀ t, t < 12 → t = 1 ∨ t = 7 ∨ t = 9 ∨ next_state State.next1 t = State.error := by
  decide

theorem ns_row2_err :
    ∀ t, t < 12 → t = 1 ∨ t = 7 ∨ t = 9 ∨ next_state State.next2 t = State.error := by
  decide

theorem ns_row3_err :
    ∀ t, t < 12 → t = 7 ∨ next_state State.next3 t = State.error := by
  decide

theorem ns_row4_err :
    ∀ t, t < 12 → t = 1 ∨ t = 9 ∨ next_state State.next4 t = State.error := by
  decide

theorem ns_row5_err :
    ∀ t, t < 12 → t = 7 ∨ t = 9 ∨ next_state State.next5 t = State.error := by
  decide

theorem ns_row6_err :
    ∀ t, t < 12 → t = 1 ∨ t = 7 ∨ t = 9 ∨ next_state State.next6 t = State.error := by
  decide

theorem ns_row7_err :
    ∀ t, t < 12 → t = 1 ∨ next_state State.next7 t = State.error := by
  decide

theorem ns_next1_err {b : Nat} (hb : b < 256) (h : ¬(0x80 ≤ b ∧ b < 0xC0)) :
    next_state State.next1 (charClass b) = State.error := by
  obtain ⟨h12, i1, i9, i7⟩ := cc_inv_cont hb
  rcases ns_row1_err (charClass b) h12 with h1 | h1 | h1 | h1
  · exact absurd (by have := i1.mp h1; omega : (0x80 ≤ b ∧ b < 0xC0)) h
  · exact absurd (by have := i7.mp h1; omega : (0x80 ≤ b ∧ b < 0xC0)) h
  · exact absurd (by have := i9.mp h1; omega : (0x80 ≤ b ∧ b < 0xC0)) h
  · exact h1

theorem ns_next2_err {b : Nat} (hb : b < 256) (h : ¬(0x80 ≤ b ∧ b < 0xC0)) :
    next_state State.next2 (charClass b) = State.error := by
  obtain ⟨h12, i1, i9, i7⟩ := cc_inv_cont hb
  rcases ns_row2_err (charClass b) h12 with h1 | h1 | h1 | h1
  · exact absurd (by have := i1.mp h1; omega : (0x80 ≤ b ∧ b < 0xC0)) h
  · exact absurd (by have := i7.mp h1; omega : (0x80 ≤ b ∧ b < 0xC0)) h
  · exact absurd (by have := i9.mp h1; omega : (0x80 ≤ b ∧ b < 0xC0)) h
  · exact h1

theorem ns_next3_err {b : Nat} (hb : b < 256) (h : ¬(0xA0 ≤ b ∧ b < 0xC0)) :
    next_state State.next3 (charClass b) = State.error := by
  obtain ⟨h12, i1, i9, i7⟩ := cc_inv_cont hb
  rcases ns_row3_err (charClass b) h12 with h1 | h1
  · exact absurd (by have := i7.mp h1; omega : (0xA0 ≤ b ∧ b < 0xC0)) h
  · exact h1

theorem ns_next4_err {b : Nat} (hb : b < 256) (h : ¬(0x80 ≤ b ∧ b < 0xA0)) :
    next_state State.next4 (charClass b) = State.error := by
  obtain ⟨h12, i1, i9, i7⟩ := cc_inv_cont hb
  rcases ns_row4_err (charClass b) h12 with h1 | h1 | h1
  · exact absurd (by have := i1.mp h1; omega : (0x80 ≤ b ∧ b < 0xA0)) h
  · exact absurd (by have := i9.mp h1; omega : (0x80 ≤ b ∧ b < 0xA0)) h
  · exact h1

theorem ns_next5_err {b : Nat} (hb : b < 256) (h : ¬(0x90 ≤ b ∧ b < 0xC0)) :
    next_state State.next5 (charClass b) = State.error := by
  obtain ⟨h12, i1, i9, i7⟩ := cc_inv_cont hb
  rcases ns_row5_err (charClass b) h12 with h1 | h1 | h1
  · exact absurd (by have := i7.mp h1; omega : (0x90 ≤ b ∧ b < 0xC0)) h
  · exact absurd (by have := i9.mp h1; omega : (0x90 ≤ b ∧ b < 0xC0)) h
  · exact h1

theorem ns_next6_err {b : Nat} (hb : b < 256) (h : ¬(0x80 ≤ b ∧ b < 0xC0)) :
    next_state State.next6 (charClass b) = State.error := by
  obtain ⟨h12, i1, i9, i7⟩ := cc_inv_cont hb
  rcases ns_row6_err (charClass b) h12 with h1 | h1 | h1 | h1
  · exact absurd (by have := i1.mp h1; omega : (0x80 ≤ b ∧ b < 0xC0)) h
  · exact absurd (by have := i7.mp h1; omega : (0x80 ≤ b ∧ b < 0xC0)) h
  · exact absurd (by have := i9.mp h1; omega : (0x80 ≤ b ∧ b < 0xC0)) h
  · exact h1

theorem ns_next7_err {b : Nat} (hb : b < 256) (h : ¬(0x80 ≤ b ∧ b < 0x90)) :
    next_state State.next7 (charClass b) = State.error := by
  obtain ⟨h12, i1, i9, i7⟩ := cc_inv_cont hb
  rcases ns_row7_err (charClass b) h12 with h1 | h1
  · exact absurd (by have := i1.mp h1; omega : (0x80 ≤ b ∧ b < 0x90)) h
  · exact h1

/-! ## Shape equations for `utf8Spec` -/

theorem utf8Spec_nil : utf8Spec [] = [] := rfl

theorem utf8Spec_ascii (b : Nat) (rest : List Nat) (h : b < 0x80) :
    utf8Spec (b :: rest) = b :: utf8Spec rest := by
  rw [utf8Spec.eq_def]
  simp only []
  rw [if_pos h]

theorem utf8Spec_badstart (b : Nat) (rest : List Nat) (h1 : 0x80 ≤ b) (h2 : b < 0xC2) :
    utf8Spec (b :: rest) = replacement_char_ :: utf8Spec rest := by
  rw [utf8Spec.eq_def]
  simp only []
  rw [if_neg (by omega), if_pos h2]
  rfl


theorem utf8Spec_f5ff (b : Nat) (rest : List Nat) (h1 : 0xF5 ≤ b) :
    utf8Spec (b :: rest) = replacement_char_ :: utf8Spec rest := by
  rw [utf8Spec.eq_def]
  simp only []
  rw [if_neg (by omega), if_neg (by omega), if_neg (by omega), if_neg (by omega),
    if_neg (by omega)]
  rfl


theorem utf8Spec_lead2_nil (b : Nat) (h1 : 0xC2 ≤ b) (h2 : b < 0xE0) :
    utf8Spec [b] = [replacement_char_] := by
  rw [utf8Spec.eq_def]
  simp only []
  rw [if_neg (by omega), if_neg (by omega), if_pos h2]
  rfl


theorem utf8Spec_lead2_cont (b b2 : Nat) (rest2 : List Nat) (h1 : 0xC2 ≤ b) (h2 : b < 0xE0)
    (hc : 0x80 ≤ b2 ∧ b2 < 0xC0) :
    utf8Spec (b :: b2 :: rest2) = ((b - 0xC0) * 64 + (b2 - 0x80)) :: utf8Spec rest2 := by
  rw [utf8Spec.eq_def]
  simp only []
  rw [if_neg (by omega), if_neg (by omega), if_pos h2, if_pos hc]

theorem utf8Spec_lead2_bad (b b2 : Nat) (rest2 : List Nat) (h1 : 0xC2 ≤ b) (h2 : b < 0xE0)
    (hc : ¬(0x80 ≤ b2 ∧ b2 < 0xC0)) :
    utf8Spec (b :: b2 :: rest2) = replacement_char_ :: utf8Spec (b2 :: rest2) := by
  rw [utf8Spec.eq_def]
  simp only []
  rw [if_neg (by omega), if_neg (by omega), if_pos h2, if_neg hc]
  rfl


theorem utf8Spec_lead3_nil (b : Nat) (h1 : 0xE0 ≤ b) (h2 : b < 0xF0) :
    utf8Spec [b] = [replacement_char_] := by
  rw [utf8Spec.eq_def]
  simp only []
  rw [if_neg (by omega), if_neg (by omega), if_neg (by omega), if_pos h2]
  rfl


theorem utf8Spec_lead3_bad2 (b b2 : Nat) (rest2 : List Nat) (h1 : 0xE0 ≤ b) (h2 : b < 0xF0)
    (hc : ¬((if b = 0xE0 then 0xA0 else 0x80) ≤ b2 ∧
            b2 < (if b = 0xED then 0xA0 else 0xC0))) :
    utf8Spec (b :: b2 :: rest2) = replacement_char_ :: utf8Spec (b2 :: rest2) := by
  rw [utf8Spec.eq_def]
  simp only []
  rw [if_neg (by omega), if_neg (by omega), if_neg (by omega), if_pos h2, if_neg hc]
  rfl


theorem utf8Spec_lead3_cont2_nil (b b2 : Nat) (h1 : 0xE0 ≤ b) (h2 : b < 0xF0)
    (hc : (if b = 0xE0 then 0xA0 else 0x80) ≤ b2 ∧
          b2 < (if b = 0xED then 0xA0 else 0xC0)) :
    utf8Spec [b, b2] = [replacement_char_] := by
  rw [utf8Spec.eq_def]
  simp only []
  rw [if_neg (by omega), if_neg (by omega), if_neg (by omega), if_pos h2, if_pos hc]
  rfl


theorem utf8Spec_lead3_cont3 (b b2 b3 : Nat) (rest3 : List Nat)
    (h1 : 0xE0 ≤ b) (h2 : b < 0xF0)
    (hc : (if b = 0xE0 then 0xA0 else 0x80) ≤ b2 ∧
          b2 < (if b = 0xED then 0xA0 else 0xC0))
    (hc3 : 0x80 ≤ b3 ∧ b3 < 0xC0) :
    utf8Spec (b :: b2 :: b3 :: rest3) =
      ((b - 0xE0) * 4096 + (b2 - 0x80) * 64 + (b3 - 0x80)) :: utf8Spec rest3 := by
  rw [utf8Spec.eq_def]
  simp only []
  rw [if_neg (by omega), if_neg (by omega), if_neg (by omega), if_pos h2, if_pos hc,
    if_pos hc3]

theorem utf8Spec_lead3_bad3 (b b2 b3 : Nat) (rest3 : List Nat)
    (h1 : 0xE0 ≤ b) (h2 : b < 0xF0)
    (hc : (if b = 0xE0 then 0xA0 else 0x80) ≤ b2 ∧
          b2 < (if b = 0xED then 0xA0 else 0xC0))
    (hc3 : ¬(0x80 ≤ b3 ∧ b3 < 0xC0)) :
    utf8Spec (b :: b2 :: b3 :: rest3) = replacement_char_ :: utf8Spec (b3 :: rest3) := by
  rw [utf8Spec.eq_def]
  simp only []
  rw [if_neg (by omega), if_neg (by omega), if_neg (by omega), if_pos h2, if_pos hc,
    if_neg hc3]
  rfl


theorem utf8Spec_lead4_nil (b : Nat) (h1 : 0xF0 ≤ b) (h2 : b < 0xF5) :
    utf8Spec [b] = [replacement_char_] := by
  rw [utf8Spec.eq_def]
  simp only []
  rw [if_neg (by omega), if_neg (by omega), if_neg (by omega), if_neg (by omega),
    if_pos h2]
  rfl


theorem utf8Spec_lead4_bad2 (b b2 : Nat) (rest2 : List Nat) (h1 : 0xF0 ≤ b) (h2 : b < 0xF5)
    (hc : ¬((if b = 0xF0 then 0x90 else 0x80) ≤ b2 ∧
            b2 < (if b = 0xF4 then 0x90 else 0xC0))) :
    utf8Spec (b :: b2 :: rest2) = replacement_char_ :: utf8Spec (b2 :: rest2) := by
  rw [utf8Spec.eq_def]
  simp only []
  rw [if_neg (by omega), if_neg (by omega), if_neg (by omega), if_neg (by omega),
    if_pos h2, if_neg hc]
  rfl


theorem utf8Spec_lead4_cont2_nil (b b2 : Nat) (h1 : 0xF0 ≤ b) (h2 : b < 0xF5)
    (hc : (if b = 0xF0 then 0x90 else 0x80) ≤ b2 ∧
          b2 < (if b = 0xF4 then 0x90 else 0xC0)) :
    utf8Spec [b, b2] = [replacement_char_] := by
  rw [utf8Spec.eq_def]
  simp only []
  rw [if_neg (by omega), if_neg (by omega), if_neg (by omega), if_neg (by omega),
    if_pos h2, if_pos hc]
  rfl


theorem utf8Spec_lead4_bad3 (b b2 b3 : Nat) (rest3 : List Nat)
    (h1 : 0xF0 ≤ b) (h2 : b < 0xF5)
    (hc : (if b = 0xF0 then 0x90 else 0x80) ≤ b2 ∧
          b2 < (if b = 0xF4 then 0x90 else 0xC0))
    (hc3 : ¬(0x80 ≤ b3 ∧ b3 < 0xC0)) :
    utf8Spec (b :: b2 :: b3 :: rest3) = replacement_char_ :: utf8Spec (b3 :: rest3) := by
  rw [utf8Spec.eq_def]
  simp only []
  rw [if_neg (by omega), if_neg (by omega), if_neg (by omega), if_neg (by omega),
    if_pos h2, if_pos hc, if_neg hc3]
  rfl


theorem utf8Spec_lead4_cont3_nil (b b2 b3 : Nat) (h1 : 0xF0 ≤ b) (h2 : b < 0xF5)
    (hc : (if b = 0xF0 then 0x90 else 0x80) ≤ b2 ∧
          b2 < (if b = 0xF4 then 0x90 else 0xC0))
    (hc3 : 0x80 ≤ b3 ∧ b3 < 0xC0) :
    utf8Spec [b, b2, b3] = [replacement_char_] := by
  rw [utf8Spec.eq_def]
  simp only []
  rw [if_neg (by omega), if_neg (by omega), if_neg (by omega), if_neg (by omega),
    if_pos h2, if_pos hc, if_pos hc3]
  rfl


theorem utf8Spec_lead4_bad4 (b b2 b3 b4 : Nat) (rest4 : List Nat)
    (h1 : 0xF0 ≤ b) (h2 : b < 0xF5)
    (hc : (if b = 0xF0 then 0x90 else 0x80) ≤ b2 ∧
          b2 < (if b = 0xF4 then 0x90 else 0xC0))
    (hc3 : 0x80 ≤ b3 ∧ b3 < 0xC0)
    (hc4 : ¬(0x80 ≤ b4 ∧ b4 < 0xC0)) :
    utf8Spec (b :: b2 :: b3 :: b4 :: rest4) = replacement_char_ :: utf8Spec (b4 :: rest4) := by
  rw [utf8Spec.eq_def]
  simp only []
  rw [if_neg (by omega), if_neg (by omega), if_neg (by omega), if_neg (by omega),
    if_pos h2, if_pos hc, if_pos hc3, if_neg hc4]
  rfl


theorem utf8Spec_lead4_full (b b2 b3 b4 : Nat) (rest4 : List Nat)
    (h1 : 0xF0 ≤ b) (h2 : b < 0xF5)
    (hc : (if b = 0xF0 then 0x90 else 0x80) ≤ b2 ∧
          b2 < (if b = 0xF4 then 0x90 else 0xC0))
    (hc3 : 0x80 ≤ b3 ∧ b3 < 0xC0)
    (hc4 : 0x80 ≤ b4 ∧ b4 < 0xC0) :
    utf8Spec (b :: b2 :: b3 :: b4 :: rest4) =
      ((b - 0xF0) * 262144 + (b2 - 0x80) * 4096 + (b3 - 0x80) * 64 + (b4 - 0x80)) ::
        utf8Spec rest4 := by
  rw [utf8Spec.eq_def]
  simp only []
  rw [if_neg (by omega), if_neg (by omega), if_neg (by omega), if_neg (by omega),
    if_pos h2, if_pos hc, if_pos hc3, if_pos hc4]

/-! ## The unified interrupt lemma

Interrupting a multi-byte sequence emits one replacement and then behaves
exactly as a fresh start on the interrupting byte: this is the decoder's
realization of the maximal-subpart rule. -/

theorem driveOut_interrupt (c : Nat) (p : ToDeliver) (b : Nat) (s : State) (rest : List Nat)
    (hb256 : b < 256)
    (h0 : s ≠ State.start)
    (hs : next_state s (charClass b) = State.error) :
    driveOut ⟨c, s, p⟩ (b :: rest) =
      replacement_char_ :: driveOut ⟨c, State.start, ToDeliver.nothing⟩ (b :: rest) := by
  by_cases hA : b < 0x80
  · rw [driveOut_interrupt_ascii c p b s rest h0 hs hA,
      driveOut_start_ascii c ToDeliver.nothing b rest hA]
  by_cases hB : b < 0xC2
  · rw [driveOut_interrupt_stray c p b s rest h0 hs (ns_start_err_cont (by omega) hB),
      driveOut_start_err c ToDeliver.nothing b rest (ns_start_err_cont (by omega) hB)]
  by_cases hC : b < 0xE0
  · have hc1 : charClass b = 2 := cc_lead2 (by omega) hC
    rw [driveOut_interrupt_lead c p b s State.next1 rest h0 hs (by rw [hc1]; rfl)
        (by simp) (by simp),
      driveOut_start_lead c ToDeliver.nothing b State.next1 rest (by rw [hc1]; rfl)
        (by simp) (by simp)]
  by_cases hD : b = 0xE0
  · subst hD
    rw [driveOut_interrupt_lead c p 0xE0 s State.next3 rest h0 hs (by rw [cc_e0]; rfl)
        (by simp) (by simp),
      driveOut_start_lead c ToDeliver.nothing 0xE0 State.next3 rest (by rw [cc_e0]; rfl)
        (by simp) (by simp)]
  by_cases hE : b = 0xED
  · subst hE
    rw [driveOut_interrupt_lead c p 0xED s State.next4 rest h0 hs (by rw [cc_ed]; rfl)
        (by simp) (by simp),
      driveOut_start_lead c ToDeliver.nothing 0xED State.next4 rest (by rw [cc_ed]; rfl)
        (by simp) (by simp)]
  by_cases hF : b < 0xF0
  · have hc1 : charClass b = 3 := cc_lead3 (by omega) hF hE
    rw [driveOut_interrupt_lead c p b s State.next2 rest h0 hs (by rw [hc1]; rfl)
        (by simp) (by simp),
      driveOut_start_lead c ToDeliver.nothing b State.next2 rest (by rw [hc1]; rfl)
        (by simp) (by simp)]
  by_cases hG : b = 0xF0
  · subst hG
    rw [driveOut_interrupt_lead c p 0xF0 s State.next5 rest h0 hs (by rw [cc_f0]; rfl)
        (by simp) (by simp),
      driveOut_start_lead c ToDeliver.nothing 0xF0 State.next5 rest (by rw [cc_f0]; rfl)
        (by simp) (by simp)]
  by_cases hH : b < 0xF4
  · have hc1 : charClass b = 6 := cc_lead4 (by omega) hH
    rw [driveOut_interrupt_lead c p b s State.next6 rest h0 hs (by rw [hc1]; rfl)
        (by simp) (by simp),
      driveOut_start_lead c ToDeliver.nothing b State.next6 rest (by rw [hc1]; rfl)
        (by simp) (by simp)]
  by_cases hI : b = 0xF4
  · subst hI
    rw [driveOut_interrupt_lead c p 0xF4 s State.next7 rest h0 hs (by rw [cc_f4]; rfl)
        (by simp) (by simp),
      driveOut_start_lead c ToDeliver.nothing 0xF4 State.next7 rest (by rw [cc_f4]; rfl)
        (by simp) (by simp)]
  · rw [driveOut_interrupt_stray c p b s rest h0 hs (ns_start_err_f5 (by omega) hb256),
      driveOut_start_err c ToDeliver.nothing b rest (ns_start_err_f5 (by omega) hb256)]

/-- The driving protocol from `start` realizes exactly the spec's
maximal-subpart decoding, for every byte sequence. -/
theorem driveOut_eq_utf8Spec_aux :
    ∀ (n : Nat) (B : List Nat), B.length ≤ n → (∀ u ∈ B, u < 256) →
    ∀ (x : Nat) (p : ToDeliver), driveOut ⟨x, State.start, p⟩ B = utf8Spec B := by
  intro n
  induction n with
  | zero =>
    intro B hlen hbytes x p
    have hB : B = [] := List.eq_nil_of_length_eq_zero (by omega)
    subst hB
    rw [driveOut_nil_start, utf8Spec_nil]
  | succ n ih =>
    intro B hlen hbytes x p
    cases B with
    | nil => rw [driveOut_nil_start, utf8Spec_nil]
    | cons b rest =>
      have hb : b < 256 := hbytes b (by simp)
      have hrest : ∀ u ∈ rest, u < 256 := fun u hu => hbytes u (by simp [hu])
      have hlr : rest.length ≤ n := by simp at hlen; omega
      by_cases hA : b < 0x80
      · rw [driveOut_start_ascii x p b rest hA, utf8Spec_ascii b rest hA,
          ih rest hlr hrest b ToDeliver.nothing]
      by_cases hB : b < 0xC2
      · rw [driveOut_start_err x p b rest (ns_start_err_cont (by omega) hB),
          utf8Spec_badstart b rest (by omega) hB, ih rest hlr hrest x ToDeliver.nothing]
      by_cases hC : b < 0xE0
      · have hc1 : charClass b = 2 := cc_lead2 (by omega) hC
        rw [driveOut_start_lead x p b State.next1 rest (by rw [hc1]; rfl)
            (by simp) (by simp), hc1, payload2]
        cases rest with
        | nil =>
          rw [driveOut_nil_not_start _ _ _ (by simp), utf8Spec_lead2_nil b (by omega) hC]
        | cons b2 rest2 =>
          have hb2 : b2 < 256 := hrest b2 (by simp)
          have hrest2 : ∀ u ∈ rest2, u < 256 := fun u hu => hrest u (by simp [hu])
          have hlr2 : rest2.length ≤ n := by simp at hlr; omega
          by_cases hcont : 0x80 ≤ b2 ∧ b2 < 0xC0
          · rw [driveOut_cont_complete _ _ _ _ _ (by simp)
                (ns_next1_cont hcont.1 hcont.2), cont_accum]
            have hsc : 64 * (b % 64) + b2 % 64 = (b - 0xC0) * 64 + (b2 - 0x80) := by
              omega
            rw [hsc, utf8Spec_lead2_cont b b2 rest2 (by omega) hC hcont,
              ih rest2 hlr2 hrest2 _ ToDeliver.nothing]
          · rw [driveOut_interrupt _ _ _ _ _ hb2 (by simp) (ns_next1_err hb2 hcont),
              ih (b2 :: rest2) hlr hrest _ ToDeliver.nothing,
              utf8Spec_lead2_bad b b2 rest2 (by omega) hC hcont]
      by_cases hD : b = 0xE0
      · subst hD
        rw [driveOut_start_lead x p 0xE0 State.next3 rest (by rw [cc_e0]; rfl)
            (by simp) (by simp), cc_e0, payload10]
        cases rest with
        | nil =>
          rw [driveOut_nil_not_start _ _ _ (by simp),
            utf8Spec_lead3_nil 0xE0 (by omega) (by omega)]
        | cons b2 rest2 =>
          have hb2 : b2 < 256 := hrest b2 (by simp)
          have hrest2 : ∀ u ∈ rest2, u < 256 := fun u hu => hrest u (by simp [hu])
          have hlr2 : rest2.length ≤ n := by simp at hlr; omega
          by_cases hcont : 0xA0 ≤ b2 ∧ b2 < 0xC0
          · rw [driveOut_cont_step _ _ _ _ State.next1 _ (by simp)
                (ns_next3_cont hcont.1 hcont.2) (by simp) (by simp), cont_accum]
            cases rest2 with
            | nil =>
              rw [driveOut_nil_not_start _ _ _ (by simp),
                utf8Spec_lead3_cont2_nil 0xE0 b2 (by omega) (by omega)
                  (by rw [if_pos rfl, if_neg (by norm_num)]; exact hcont)]
            | cons b3 rest3 =>
              have hb3 : b3 < 256 := hrest2 b3 (by simp)
              have hrest3 : ∀ u ∈ rest3, u < 256 := fun u hu => hrest2 u (by simp [hu])
              have hlr3 : rest3.length ≤ n := by simp at hlr2; omega
              by_cases hcont3 : 0x80 ≤ b3 ∧ b3 < 0xC0
              · rw [driveOut_cont_complete _ _ _ _ _ (by simp)
                    (ns_next1_cont hcont3.1 hcont3.2), cont_accum]
                have hsc : 64 * (64 * 0 + b2 % 64) + b3 % 64 =
                    (0xE0 - 0xE0) * 4096 + (b2 - 0x80) * 64 + (b3 - 0x80) := by omega
                rw [hsc, utf8Spec_lead3_cont3 0xE0 b2 b3 rest3 (by omega) (by omega)
                    (by rw [if_pos rfl, if_neg (by norm_num)]; exact hcont) hcont3,
                  ih rest3 hlr3 hrest3 _ ToDeliver.nothing]
              · rw [driveOut_interrupt _ _ _ _ _ hb3 (by simp)
                    (ns_next1_err hb3 hcont3),
                  ih (b3 :: rest3) hlr2 hrest2 _ ToDeliver.nothing,
                  utf8Spec_lead3_bad3 0xE0 b2 b3 rest3 (by omega) (by omega)
                    (by rw [if_pos rfl, if_neg (by norm_num)]; exact hcont) hcont3]
          · rw [driveOut_interrupt _ _ _ _ _ hb2 (by simp) (ns_next3_err hb2 hcont),
              ih (b2 :: rest2) hlr hrest _ ToDeliver.nothing,
              utf8Spec_lead3_bad2 0xE0 b2 rest2 (by omega) (by omega)
                (by rw [if_pos rfl, if_neg (by norm_num)]; exact hcont)]
      by_cases hE : b = 0xED
      · subst hE
        rw [driveOut_start_lead x p 0xED State.next4 rest (by rw [cc_ed]; rfl)
            (by simp) (by simp), cc_ed, payload4]
        cases rest with
        | nil =>
          rw [driveOut_nil_not_start _ _ _ (by simp),
            utf8Spec_lead3_nil 0xED (by omega) (by omega)]
        | cons b2 rest2 =>
          have hb2 : b2 < 256 := hrest b2 (by simp)
          have hrest2 : ∀ u ∈ rest2, u < 256 := fun u hu => hrest u (by simp [hu])
          have hlr2 : rest2.length ≤ n := by simp at hlr; omega
          by_cases hcont : 0x80 ≤ b2 ∧ b2 < 0xA0
          · rw [driveOut_cont_step _ _ _ _ State.next1 _ (by simp)
                (ns_next4_cont hcont.1 hcont.2) (by simp) (by simp), cont_accum]
            cases rest2 with
            | nil =>
              rw [driveOut_nil_not_start _ _ _ (by simp),
                utf8Spec_lead3_cont2_nil 0xED b2 (by omega) (by omega)
                  (by rw [if_neg (by norm_num), if_pos rfl]; exact hcont)]
            | cons b3 rest3 =>
              have hb3 : b3 < 256 := hrest2 b3 (by simp)
              have hrest3 : ∀ u ∈ rest3, u < 256 := fun u hu => hrest2 u (by simp [hu])
              have hlr3 : rest3.length ≤ n := by simp at hlr2; omega
              by_cases hcont3 : 0x80 ≤ b3 ∧ b3 < 0xC0
              · rw [driveOut_cont_complete _ _ _ _ _ (by simp)
                    (ns_next1_cont hcont3.1 hcont3.2), cont_accum]
                have hsc : 64 * (64 * ((0xED : Nat) % 16) + b2 % 64) + b3 % 64 =
                    (0xED - 0xE0) * 4096 + (b2 - 0x80) * 64 + (b3 - 0x80) := by omega
                rw [hsc, utf8Spec_lead3_cont3 0xED b2 b3 rest3 (by omega) (by omega)
                    (by rw [if_neg (by norm_num), if_pos rfl]; exact hcont) hcont3,
                  ih rest3 hlr3 hrest3 _ ToDeliver.nothing]
              · rw [driveOut_interrupt _ _ _ _ _ hb3 (by simp)
                    (ns_next1_err hb3 hcont3),
                  ih (b3 :: rest3) hlr2 hrest2 _ ToDeliver.nothing,
                  utf8Spec_lead3_bad3 0xED b2 b3 rest3 (by omega) (by omega)
                    (by rw [if_neg (by norm_num), if_pos rfl]; exact hcont) hcont3]
          · rw [driveOut_interrupt _ _ _ _ _ hb2 (by simp) (ns_next4_err hb2 hcont),
              ih (b2 :: rest2) hlr hrest _ ToDeliver.nothing,
              utf8Spec_lead3_bad2 0xED b2 rest2 (by omega) (by omega)
                (by rw [if_neg (by norm_num), if_pos rfl]; exact hcont)]
      by_cases hF : b < 0xF0
      · have hc1 : charClass b = 3 := cc_lead3 (by omega) hF hE
        rw [driveOut_start_lead x p b State.next2 rest (by rw [hc1]; rfl)
            (by simp) (by simp), hc1, payload3]
        cases rest with
        | nil =>
          rw [driveOut_nil_not_start _ _ _ (by simp),
            utf8Spec_lead3_nil b (by omega) hF]
        | cons b2 rest2 =>
          have hb2 : b2 < 256 := hrest b2 (by simp)
          have hrest2 : ∀ u ∈ rest2, u < 256 := fun u hu => hrest u (by simp [hu])
          have hlr2 : rest2.length ≤ n := by simp at hlr; omega
          by_cases hcont : 0x80 ≤ b2 ∧ b2 < 0xC0
          · rw [driveOut_cont_step _ _ _ _ State.next1 _ (by simp)
                (ns_next2_cont hcont.1 hcont.2) (by simp) (by simp), cont_accum]
            cases rest2 with
            | nil =>
              rw [driveOut_nil_not_start _ _ _ (by simp),
                utf8Spec_lead3_cont2_nil b b2 (by omega) hF
                  (by rw [if_neg hD, if_neg hE]; exact hcont)]
            | cons b3 rest3 =>
              have hb3 : b3 < 256 := hrest2 b3 (by simp)
              have hrest3 : ∀ u ∈ rest3, u < 256 := fun u hu => hrest2 u (by simp [hu])
              have hlr3 : rest3.length ≤ n := by simp at hlr2; omega
              by_cases hcont3 : 0x80 ≤ b3 ∧ b3 < 0xC0
              · rw [driveOut_cont_complete _ _ _ _ _ (by simp)
                    (ns_next1_cont hcont3.1 hcont3.2), cont_accum]
                have hsc : 64 * (64 * (b % 32) + b2 % 64) + b3 % 64 =
                    (b - 0xE0) * 4096 + (b2 - 0x80) * 64 + (b3 - 0x80) := by omega
                rw [hsc, utf8Spec_lead3_cont3 b b2 b3 rest3 (by omega) hF
                    (by rw [if_neg hD, if_neg hE]; exact hcont) hcont3,
                  ih rest3 hlr3 hrest3 _ ToDeliver.nothing]
              · rw [driveOut_interrupt _ _ _ _ _ hb3 (by simp)
                    (ns_next1_err hb3 hcont3),
                  ih (b3 :: rest3) hlr2 hrest2 _ ToDeliver.nothing,
                  utf8Spec_lead3_bad3 b b2 b3 rest3 (by omega) hF
                    (by rw [if_neg hD, if_neg hE]; exact hcont) hcont3]
          · rw [driveOut_interrupt _ _ _ _ _ hb2 (by simp) (ns_next2_err hb2 hcont),
              ih (b2 :: rest2) hlr hrest _ ToDeliver.nothing,
              utf8Spec_lead3_bad2 b b2 rest2 (by omega) hF
                (by rw [if_neg hD, if_neg hE]; exact hcont)]
      by_cases hG : b = 0xF0
      · subst hG
        rw [driveOut_start_lead x p 0xF0 State.next5 rest (by rw [cc_f0]; rfl)
            (by simp) (by simp), cc_f0, payload11]
        cases rest with
        | nil =>
          rw [driveOut_nil_not_start _ _ _ (by simp),
            utf8Spec_lead4_nil 0xF0 (by omega) (by omega)]
        | cons b2 rest2 =>
          have hb2 : b2 < 256 := hrest b2 (by simp)
          have hrest2 : ∀ u ∈ rest2, u < 256 := fun u hu => hrest u (by simp [hu])
          have hlr2 : rest2.length ≤ n := by simp at hlr; omega
          by_cases hcont : 0x90 ≤ b2 ∧ b2 < 0xC0
          · rw [driveOut_cont_step _ _ _ _ State.next2 _ (by simp)
                (ns_next5_cont hcont.1 hcont.2) (by simp) (by simp), cont_accum]
            cases rest2 with
            | nil =>
              rw [driveOut_nil_not_start _ _ _ (by simp),
                utf8Spec_lead4_cont2_nil 0xF0 b2 (by omega) (by omega)
                  (by rw [if_pos rfl, if_neg (by norm_num)]; exact hcont)]
            | cons b3 rest3 =>
              have hb3 : b3 < 256 := hrest2 b3 (by simp)
              have hrest3 : ∀ u ∈ rest3, u < 256 := fun u hu => hrest2 u (by simp [hu])
              have hlr3 : rest3.length ≤ n := by simp at hlr2; omega
              by_cases hcont3 : 0x80 ≤ b3 ∧ b3 < 0xC0
              · rw [driveOut_cont_step _ _ _ _ State.next1 _ (by simp)
                    (ns_next2_cont hcont3.1 hcont3.2) (by simp) (by simp), cont_accum]
                cases rest3 with
                | nil =>
                  rw [driveOut_nil_not_start _ _ _ (by simp),
                    utf8Spec_lead4_cont3_nil 0xF0 b2 b3 (by omega) (by omega)
                      (by rw [if_pos rfl, if_neg (by norm_num)]; exact hcont) hcont3]
                | cons b4 rest4 =>
                  have hb4 : b4 < 256 := hrest3 b4 (by simp)
                  have hrest4 : ∀ u ∈ rest4, u < 256 := fun u hu =>
                    hrest3 u (by simp [hu])
                  have hlr4 : rest4.length ≤ n := by simp at hlr3; omega
                  by_cases hcont4 : 0x80 ≤ b4 ∧ b4 < 0xC0
                  · rw [driveOut_cont_complete _ _ _ _ _ (by simp)
                        (ns_next1_cont hcont4.1 hcont4.2), cont_accum]
                    have hsc : 64 * (64 * (64 * 0 + b2 % 64) + b3 % 64) + b4 % 64 =
                        (0xF0 - 0xF0) * 262144 + (b2 - 0x80) * 4096 +
                          (b3 - 0x80) * 64 + (b4 - 0x80) := by omega
                    rw [hsc, utf8Spec_lead4_full 0xF0 b2 b3 b4 rest4 (by omega) (by omega)
                        (by rw [if_pos rfl, if_neg (by norm_num)]; exact hcont)
                        hcont3 hcont4,
                      ih rest4 hlr4 hrest4 _ ToDeliver.nothing]
                  · rw [driveOut_interrupt _ _ _ _ _ hb4 (by simp)
                        (ns_next1_err hb4 hcont4),
                      ih (b4 :: rest4) hlr3 hrest3 _ ToDeliver.nothing,
                      utf8Spec_lead4_bad4 0xF0 b2 b3 b4 rest4 (by omega) (by omega)
                        (by rw [if_pos rfl, if_neg (by norm_num)]; exact hcont)
                        hcont3 hcont4]
              · rw [driveOut_interrupt _ _ _ _ _ hb3 (by simp)
                    (ns_next2_err hb3 hcont3),
                  ih (b3 :: rest3) hlr2 hrest2 _ ToDeliver.nothing,
                  utf8Spec_lead4_bad3 0xF0 b2 b3 rest3 (by omega) (by omega)
                    (by rw [if_pos rfl, if_neg (by norm_num)]; exact hcont) hcont3]
          · rw [driveOut_interrupt _ _ _ _ _ hb2 (by simp) (ns_next5_err hb2 hcont),
              ih (b2 :: rest2) hlr hrest _ ToDeliver.nothing,
              utf8Spec_lead4_bad2 0xF0 b2 rest2 (by omega) (by omega)
                (by rw [if_pos rfl, if_neg (by norm_num)]; exact hcont)]
      by_cases hH : b < 0xF4
      · have hc1 : charClass b = 6 := cc_lead4 (by omega) hH
        rw [driveOut_start_lead x p b State.next6 rest (by rw [hc1]; rfl)
            (by simp) (by simp), hc1, payload6]
        cases rest with
        | nil =>
          rw [driveOut_nil_not_start _ _ _ (by simp),
            utf8Spec_lead4_nil b (by omega) (by omega)]
        | cons b2 rest2 =>
          have hb2 : b2 < 256 := hrest b2 (by simp)
          have hrest2 : ∀ u ∈ rest2, u < 256 := fun u hu => hrest u (by simp [hu])
          have hlr2 : rest2.length ≤ n := by simp at hlr; omega
          by_cases hcont : 0x80 ≤ b2 ∧ b2 < 0xC0
          · rw [driveOut_cont_step _ _ _ _ State.next2 _ (by simp)
                (ns_next6_cont hcont.1 hcont.2) (by simp) (by simp), cont_accum]
            cases rest2 with
            | nil =>
              rw [driveOut_nil_not_start _ _ _ (by simp),
                utf8Spec_lead4_cont2_nil b b2 (by omega) (by omega)
                  (by rw [if_neg hG, if_neg (by omega)]; exact hcont)]
            | cons b3 rest3 =>
              have hb3 : b3 < 256 := hrest2 b3 (by simp)
              have hrest3 : ∀ u ∈ rest3, u < 256 := fun u hu => hrest2 u (by simp [hu])
              have hlr3 : rest3.length ≤ n := by simp at hlr2; omega
              by_cases hcont3 : 0x80 ≤ b3 ∧ b3 < 0xC0
              · rw [driveOut_cont_step _ _ _ _ State.next1 _ (by simp)
                    (ns_next2_cont hcont3.1 hcont3.2) (by simp) (by simp), cont_accum]
                cases rest3 with
                | nil =>
                  rw [driveOut_nil_not_start _ _ _ (by simp),
                    utf8Spec_lead4_cont3_nil b b2 b3 (by omega) (by omega)
                      (by rw [if_neg hG, if_neg (by omega)]; exact hcont) hcont3]
                | cons b4 rest4 =>
                  have hb4 : b4 < 256 := hrest3 b4 (by simp)
                  have hrest4 : ∀ u ∈ rest4, u < 256 := fun u hu =>
                    hrest3 u (by simp [hu])
                  have hlr4 : rest4.length ≤ n := by simp at hlr3; omega
                  by_cases hcont4 : 0x80 ≤ b4 ∧ b4 < 0xC0
                  · rw [driveOut_cont_complete _ _ _ _ _ (by simp)
                        (ns_next1_cont hcont4.1 hcont4.2), cont_accum]
                    have hsc : 64 * (64 * (64 * (b % 4) + b2 % 64) + b3 % 64) + b4 % 64 =
                        (b - 0xF0) * 262144 + (b2 - 0x80) * 4096 +
                          (b3 - 0x80) * 64 + (b4 - 0x80) := by omega
                    rw [hsc, utf8Spec_lead4_full b b2 b3 b4 rest4 (by omega) (by omega)
                        (by rw [if_neg hG, if_neg (by omega)]; exact hcont)
                        hcont3 hcont4,
                      ih rest4 hlr4 hrest4 _ ToDeliver.nothing]
                  · rw [driveOut_interrupt _ _ _ _ _ hb4 (by simp)
                        (ns_next1_err hb4 hcont4),
                      ih (b4 :: rest4) hlr3 hrest3 _ ToDeliver.nothing,
                      utf8Spec_lead4_bad4 b b2 b3 b4 rest4 (by omega) (by omega)
                        (by rw [if_neg hG, if_neg (by omega)]; exact hcont)
                        hcont3 hcont4]
              · rw [driveOut_interrupt _ _ _ _ _ hb3 (by simp)
                    (ns_next2_err hb3 hcont3),
                  ih (b3 :: rest3) hlr2 hrest2 _ ToDeliver.nothing,
                  utf8Spec_lead4_bad3 b b2 b3 rest3 (by omega) (by omega)
                    (by rw [if_neg hG, if_neg (by omega)]; exact hcont) hcont3]
          · rw [driveOut_interrupt _ _ _ _ _ hb2 (by simp) (ns_next6_err hb2 hcont),
              ih (b2 :: rest2) hlr hrest _ ToDeliver.nothing,
              utf8Spec_lead4_bad2 b b2 rest2 (by omega) (by omega)
                (by rw [if_neg hG, if_neg (by omega)]; exact hcont)]
      by_cases hI : b = 0xF4
      · subst hI
        rw [driveOut_start_lead x p 0xF4 State.next7 rest (by rw [cc_f4]; rfl)
            (by simp) (by simp), cc_f4, payload5]
        cases rest with
        | nil =>
          rw [driveOut_nil_not_start _ _ _ (by simp),
            utf8Spec_lead4_nil 0xF4 (by omega) (by omega)]
        | cons b2 rest2 =>
          have hb2 : b2 < 256 := hrest b2 (by simp)
          have hrest2 : ∀ u ∈ rest2, u < 256 := fun u hu => hrest u (by simp [hu])
          have hlr2 : rest2.length ≤ n := by simp at hlr; omega
          by_cases hcont : 0x80 ≤ b2 ∧ b2 < 0x90
          · rw [driveOut_cont_step _ _ _ _ State.next2 _ (by simp)
                (ns_next7_cont hcont.1 hcont.2) (by simp) (by simp), cont_accum]
            cases rest2 with
            | nil =>
              rw [driveOut_nil_not_start _ _ _ (by simp),
                utf8Spec_lead4_cont2_nil 0xF4 b2 (by omega) (by omega)
                  (by rw [if_neg (by norm_num), if_pos rfl]; exact hcont)]
            | cons b3 rest3 =>
              have hb3 : b3 < 256 := hrest2 b3 (by simp)
              have hrest3 : ∀ u ∈ rest3, u < 256 := fun u hu => hrest2 u (by simp [hu])
              have hlr3 : rest3.length ≤ n := by simp at hlr2; omega
              by_cases hcont3 : 0x80 ≤ b3 ∧ b3 < 0xC0
              · rw [driveOut_cont_step _ _ _ _ State.next1 _ (by simp)
                    (ns_next2_cont hcont3.1 hcont3.2) (by simp) (by simp), cont_accum]
                cases rest3 with
                | nil =>
                  rw [driveOut_nil_not_start _ _ _ (by simp),
                    utf8Spec_lead4_cont3_nil 0xF4 b2 b3 (by omega) (by omega)
                      (by rw [if_neg (by norm_num), if_pos rfl]; exact hcont) hcont3]
                | cons b4 rest4 =>
                  have hb4 : b4 < 256 := hrest3 b4 (by simp)
                  have hrest4 : ∀ u ∈ rest4, u < 256 := fun u hu =>
                    hrest3 u (by simp [hu])
                  have hlr4 : rest4.length ≤ n := by simp at hlr3; omega
                  by_cases hcont4 : 0x80 ≤ b4 ∧ b4 < 0xC0
                  · rw [driveOut_cont_complete _ _ _ _ _ (by simp)
                        (ns_next1_cont hcont4.1 hcont4.2), cont_accum]
                    have hsc : 64 * (64 * (64 * ((0xF4 : Nat) % 8) + b2 % 64) + b3 % 64) +
                        b4 % 64 =
                        (0xF4 - 0xF0) * 262144 + (b2 - 0x80) * 4096 +
                          (b3 - 0x80) * 64 + (b4 - 0x80) := by omega
                    rw [hsc, utf8Spec_lead4_full 0xF4 b2 b3 b4 rest4 (by omega) (by omega)
                        (by rw [if_neg (by norm_num), if_pos rfl]; exact hcont)
                        hcont3 hcont4,
                      ih rest4 hlr4 hrest4 _ ToDeliver.nothing]
                  · rw [driveOut_interrupt _ _ _ _ _ hb4 (by simp)
                        (ns_next1_err hb4 hcont4),
                      ih (b4 :: rest4) hlr3 hrest3 _ ToDeliver.nothing,
                      utf8Spec_lead4_bad4 0xF4 b2 b3 b4 rest4 (by omega) (by omega)
                        (by rw [if_neg (by norm_num), if_pos rfl]; exact hcont)
                        hcont3 hcont4]
              · rw [driveOut_interrupt _ _ _ _ _ hb3 (by simp)
                    (ns_next2_err hb3 hcont3),
                  ih (b3 :: rest3) hlr2 hrest2 _ ToDeliver.nothing,
                  utf8Spec_lead4_bad3 0xF4 b2 b3 rest3 (by omega) (by omega)
                    (by rw [if_neg (by norm_num), if_pos rfl]; exact hcont) hcont3]
          · rw [driveOut_interrupt _ _ _ _ _ hb2 (by simp) (ns_next7_err hb2 hcont),
              ih (b2 :: rest2) hlr hrest _ ToDeliver.nothing,
              utf8Spec_lead4_bad2 0xF4 b2 rest2 (by omega) (by omega)
                (by rw [if_neg (by norm_num), if_pos rfl]; exact hcont)]
      · rw [driveOut_start_err x p b rest (ns_start_err_f5 (by omega) hb),
          utf8Spec_f5ff b rest (by omega), ih rest hlr hrest x ToDeliver.nothing]

/-- Decoding the concatenated encoding of a scalar sequence from `start` emits
exactly that sequence and ends at `start`. -/
theorem driveRun_encodeList (C : List Nat) (hC : ∀ c ∈ C, ScalarValue c)
    (x : Nat) (p : ToDeliver) :
    (driveRun ⟨x, State.start, p⟩ (Utf8EncodeList C)).1 = C ∧
    (driveRun ⟨x, State.start, p⟩ (Utf8EncodeList C)).2.state_ = State.start := by
  induction C generalizing x p with
  | nil => exact ⟨rfl, rfl⟩
  | cons c C ih =>
    have hc : ScalarValue c := hC c (List.mem_cons_self c C)
    have hC' : ∀ c' ∈ C, ScalarValue c' := fun c' h => hC c' (List.mem_cons_of_mem c h)
    rw [Utf8EncodeList, driveRun_encode x p c hc (Utf8EncodeList C)]
    obtain ⟨ih1, ih2⟩ := ih hC' c ToDeliver.nothing
    exact ⟨by rw [ih1], ih2⟩

theorem initDecoder_eq : initDecoder = ⟨0, State.start, ToDeliver.nothing⟩ := rfl

/-- Inverse characterization of class 0. -/
theorem cc_eq0 {b : Nat} (hb : b < 256) : charClass b = 0 ↔ b < 0x80 := by
  by_cases h0 : b < 0x80
  · rw [cc_ascii h0]; omega
  by_cases h1 : b < 0x90
  · rw [cc_cont_lo (by omega) h1]; omega
  by_cases h2 : b < 0xA0
  · rw [cc_cont_mid (by omega) h2]; omega
  by_cases h3 : b < 0xC0
  · rw [cc_cont_hi (by omega) h3]; omega
  by_cases h4 : b < 0xC2
  · rw [cc_c0c1 (by omega) h4]; omega
  by_cases h5 : b < 0xE0
  · rw [cc_lead2 (by omega) h5]; omega
  by_cases h6 : b = 0xE0
  · subst h6; rw [cc_e0]; omega
  by_cases h7 : b = 0xED
  · subst h7; rw [cc_ed]; omega
  by_cases h8 : b < 0xF0
  · rw [cc_lead3 (by omega) h8 h7]; omega
  by_cases h9 : b = 0xF0
  · subst h9; rw [cc_f0]; omega
  by_cases h10 : b < 0xF4
  · rw [cc_lead4 (by omega) h10]; omega
  by_cases h11 : b = 0xF4
  · subst h11; rw [cc_f4]; omega
  · rw [cc_f5_ff (by omega) hb]; omega

/-- From `start`, only class 0 transitions back to `start`. -/
theorem ns_start0 : ∀ t, t < 12 → t = 0 ∨ next_state State.start t ≠ State.start := by
  decide

/-! ## Preservation of the decoder invariant -/

theorem inv_start_nothing (v : Nat) : Inv ⟨v, State.start, ToDeliver.nothing⟩ := by
  unfold Inv
  exact ⟨fun h => absurd h (by simp), trivial⟩

theorem inv_start_err (v : Nat) : Inv ⟨v, State.start, ToDeliver.error⟩ := by
  unfold Inv
  exact ⟨fun h => absurd h (by simp), trivial⟩

theorem inv_start_cp (v : Nat) (h : v < 0x80) : Inv ⟨v, State.start, ToDeliver.code_point⟩ := by
  unfold Inv
  exact ⟨fun _ => ⟨h, rfl⟩, trivial⟩

theorem inv_next1 (v : Nat) (h1 : v < 0x4400) (h2 : ¬(0x360 ≤ v ∧ v < 0x380)) :
    Inv ⟨v, State.next1, ToDeliver.nothing⟩ := by
  unfold Inv
  exact ⟨fun h => absurd h (by simp), h1, h2⟩

theorem inv_next2 (v : Nat) (h1 : v < 0x110) (h2 : v ≠ 13) :
    Inv ⟨v, State.next2, ToDeliver.nothing⟩ := by
  unfold Inv
  exact ⟨fun h => absurd h (by simp), h1, h2⟩

theorem inv_next3 : Inv ⟨0, State.next3, ToDeliver.nothing⟩ := by
  unfold Inv
  exact ⟨fun h => absurd h (by simp), rfl⟩

theorem inv_next4 : Inv ⟨13, State.next4, ToDeliver.nothing⟩ := by
  unfold Inv
  exact ⟨fun h => absurd h (by simp), rfl⟩

theorem inv_next5 : Inv ⟨0, State.next5, ToDeliver.nothing⟩ := by
  unfold Inv
  exact ⟨fun h => absurd h (by simp), rfl⟩

theorem inv_next6 (v : Nat) (h1 : 1 ≤ v) (h2 : v ≤ 3) :
    Inv ⟨v, State.next6, ToDeliver.nothing⟩ := by
  unfold Inv
  exact ⟨fun h => absurd h (by simp), h1, h2⟩

theorem inv_next7 : Inv ⟨4, State.next7, ToDeliver.nothing⟩ := by
  unfold Inv
  exact ⟨fun h => absurd h (by simp), rfl⟩

/-- Interrupting a sequence leaves the decoder in an invariant state. -/
theorem inv_interrupt (c : Nat) (s : State) (p : ToDeliver) (b : Nat) (hb : b < 256)
    (h0 : s ≠ State.start) (hs : next_state s (charClass b) = State.error) :
    Inv ((⟨c, s, p⟩ : Decoder).decode b).2 := by
  by_cases hA : b < 0x80
  · rw [decode_interrupt_ascii c p b s h0 hs hA]
    exact inv_start_cp b hA
  by_cases hB : b < 0xC2
  · rw [decode_interrupt_stray c p b s h0 hs (ns_start_err_cont (by omega) hB)]
    exact inv_start_err c
  by_cases hC : b < 0xE0
  · have hc1 : charClass b = 2 := cc_lead2 (by omega) hC
    rw [decode_interrupt_lead c p b s State.next1 h0 hs (by rw [hc1]; rfl)
      (by simp) (by simp), hc1, payload2]
    exact inv_next1 (b % 64) (by omega) (by omega)
  by_cases hD : b = 0xE0
  · subst hD
    rw [decode_interrupt_lead c p 0xE0 s State.next3 h0 hs (by rw [cc_e0]; rfl)
      (by simp) (by simp), cc_e0, payload10]
    exact inv_next3
  by_cases hE : b = 0xED
  · subst hE
    rw [decode_interrupt_lead c p 0xED s State.next4 h0 hs (by rw [cc_ed]; rfl)
      (by simp) (by simp), cc_ed, payload4]
    exact inv_next4
  by_cases hF : b < 0xF0
  · have hc1 : charClass b = 3 := cc_lead3 (by omega) hF hE
    rw [decode_interrupt_lead c p b s State.next2 h0 hs (by rw [hc1]; rfl)
      (by simp) (by simp), hc1, payload3]
    exact inv_next2 (b % 32) (by omega) (by omega)
  by_cases hG : b = 0xF0
  · subst hG
    rw [decode_interrupt_lead c p 0xF0 s State.next5 h0 hs (by rw [cc_f0]; rfl)
      (by simp) (by simp), cc_f0, payload11]
    exact inv_next5
  by_cases hH : b < 0xF4
  · have hc1 : charClass b = 6 := cc_lead4 (by omega) hH
    rw [decode_interrupt_lead c p b s State.next6 h0 hs (by rw [hc1]; rfl)
      (by simp) (by simp), hc1, payload6]
    exact inv_next6 (b % 4) (by omega) (by omega)
  by_cases hI : b = 0xF4
  · subst hI
    rw [decode_interrupt_lead c p 0xF4 s State.next7 h0 hs (by rw [cc_f4]; rfl)
      (by simp) (by simp), cc_f4, payload5]
    exact inv_next7
  · rw [decode_interrupt_stray c p b s h0 hs (ns_start_err_f5 (by omega) hb)]
    exact inv_start_err c

/-- A replacement character is a scalar value. -/
theorem scalar_replacement : ScalarValue replacement_char_ := by
  unfold ScalarValue replacement_char_
  omega

/-- Decoding any byte from `start` preserves the invariant, and any produced
value is a scalar value. -/
theorem inv_fresh_out (x : Nat) (p : ToDeliver) (b : Nat) (hb : b < 256) :
    Inv ((⟨x, State.start, p⟩ : Decoder).decode b).2 ∧
    (∀ v, ((⟨x, State.start, p⟩ : Decoder).decode b).1 = some v → ScalarValue v) := by
  by_cases hA : b < 0x80
  · rw [decode_start_ascii x p b hA]
    refine ⟨inv_start_nothing b, fun v hv => ?_⟩
    have hbv : b = v := by simpa using hv
    subst hbv
    unfold ScalarValue
    omega
  by_cases hB : b < 0xC2
  · rw [decode_start_err x p b (ns_start_err_cont (by omega) hB)]
    refine ⟨inv_start_nothing x, fun v hv => ?_⟩
    have hbv : replacement_char_ = v := by simpa using hv
    subst hbv
    exact scalar_replacement
  by_cases hC : b < 0xE0
  · have hc1 : charClass b = 2 := cc_lead2 (by omega) hC
    rw [decode_start_lead x p b State.next1 (by rw [hc1]; rfl) (by simp) (by simp),
      hc1, payload2]
    exact ⟨inv_next1 (b % 64) (by omega) (by omega), fun v hv => by simp at hv⟩
  by_cases hD : b = 0xE0
  · subst hD
    rw [decode_start_lead x p 0xE0 State.next3 (by rw [cc_e0]; rfl) (by simp) (by simp),
      cc_e0, payload10]
    exact ⟨inv_next3, fun v hv => by simp at hv⟩
  by_cases hE : b = 0xED
  · subst hE
    rw [decode_start_lead x p 0xED State.next4 (by rw [cc_ed]; rfl) (by simp) (by simp),
      cc_ed, payload4]
    exact ⟨inv_next4, fun v hv => by simp at hv⟩
  by_cases hF : b < 0xF0
  · have hc1 : charClass b = 3 := cc_lead3 (by omega) hF hE
    rw [decode_start_lead x p b State.next2 (by rw [hc1]; rfl) (by simp) (by simp),
      hc1, payload3]
    exact ⟨inv_next2 (b % 32) (by omega) (by omega), fun v hv => by simp at hv⟩
  by_cases hG : b = 0xF0
  · subst hG
    rw [decode_start_lead x p 0xF0 State.next5 (by rw [cc_f0]; rfl) (by simp) (by simp),
      cc_f0, payload11]
    exact ⟨inv_next5, fun v hv => by simp at hv⟩
  by_cases hH : b < 0xF4
  · have hc1 : charClass b = 6 := cc_lead4 (by omega) hH
    rw [decode_start_lead x p b State.next6 (by rw [hc1]; rfl) (by simp) (by simp),
      hc1, payload6]
    exact ⟨inv_next6 (b % 4) (by omega) (by omega), fun v hv => by simp at hv⟩
  by_cases hI : b = 0xF4
  · subst hI
    rw [decode_start_lead x p 0xF4 State.next7 (by rw [cc_f4]; rfl) (by simp) (by simp),
      cc_f4, payload5]
    exact ⟨inv_next7, fun v hv => by simp at hv⟩
  · rw [decode_start_err x p b (ns_start_err_f5 (by omega) hb)]
    refine ⟨inv_start_nothing x, fun v hv => ?_⟩
    have hbv : replacement_char_ = v := by simpa using hv
    subst hbv
    exact scalar_replacement

/-- The primary output of an interrupting decode is the replacement character. -/
theorem decode_interrupt_fst (c : Nat) (s : State) (p : ToDeliver) (b : Nat) (hb : b < 256)
    (h0 : s ≠ State.start) (hs : next_state s (charClass b) = State.error) :
    ((⟨c, s, p⟩ : Decoder).decode b).1 = some replacement_char_ := by
  by_cases hE : next_state State.start (charClass b) = State.error
  · rw [decode_interrupt_stray c p b s h0 hs hE]
  · by_cases hS0 : next_state State.start (charClass b) = State.start
    · rcases ns_start0 (charClass b) (cc_inv_cont hb).1 with ht | hne
      · rw [decode_interrupt_ascii c p b s h0 hs ((cc_eq0 hb).mp ht)]
      · exact absurd hS0 hne
    · rw [decode_interrupt_lead c p b s _ h0 hs rfl hE hS0]

/-- `decode` preserves the invariant and only produces scalar values. -/
theorem inv_decode_out (d : Decoder) (b : Nat) (hb : b < 256) (hI : Inv d) :
    Inv (d.decode b).2 ∧ (∀ v, (d.decode b).1 = some v → ScalarValue v) := by
  obtain ⟨c, s, p⟩ := d
  cases s with
  | start => exact inv_fresh_out c p b hb
  | error => exact absurd hI.2 (by simp)
  | next1 =>
    have hb1 : c < 0x4400 := hI.2.1
    have hb2 : ¬(0x360 ≤ c ∧ c < 0x380) := hI.2.2
    by_cases hcont : 0x80 ≤ b ∧ b < 0xC0
    · rw [decode_cont_complete c p b State.next1 (by simp)
        (ns_next1_cont hcont.1 hcont.2), cont_accum]
      refine ⟨inv_start_nothing _, fun v hv => ?_⟩
      have hbv : 64 * c + b % 64 = v := by simpa using hv
      subst hbv
      unfold ScalarValue
      omega
    · have hserr := ns_next1_err hb hcont
      refine ⟨inv_interrupt c State.next1 p b hb (by simp) hserr, fun v hv => ?_⟩
      rw [decode_interrupt_fst c State.next1 p b hb (by simp) hserr] at hv
      have hbv : replacement_char_ = v := by simpa using hv
      subst hbv
      exact scalar_replacement
  | next2 =>
    have hb1 : c < 0x110 := hI.2.1
    have hb2 : c ≠ 13 := hI.2.2
    by_cases hcont : 0x80 ≤ b ∧ b < 0xC0
    · rw [decode_cont_step c p b State.next2 State.next1 (by simp)
        (ns_next2_cont hcont.1 hcont.2) (by simp) (by simp), cont_accum]
      exact ⟨inv_next1 _ (by omega) (by omega), fun v hv => by simp at hv⟩
    · have hserr := ns_next2_err hb hcont
      refine ⟨inv_interrupt c State.next2 p b hb (by simp) hserr, fun v hv => ?_⟩
      rw [decode_interrupt_fst c State.next2 p b hb (by simp) hserr] at hv
      have hbv : replacement_char_ = v := by simpa using hv
      subst hbv
      exact scalar_replacement
  | next3 =>
    have hc0 : c = 0 := hI.2
    subst hc0
    by_cases hcont : 0xA0 ≤ b ∧ b < 0xC0
    · rw [decode_cont_step 0 p b State.next3 State.next1 (by simp)
        (ns_next3_cont hcont.1 hcont.2) (by simp) (by simp), cont_accum]
      exact ⟨inv_next1 _ (by omega) (by omega), fun v hv => by simp at hv⟩
    · have hserr := ns_next3_err hb hcont
      refine ⟨inv_interrupt 0 State.next3 p b hb (by simp) hserr, fun v hv => ?_⟩
      rw [decode_interrupt_fst 0 State.next3 p b hb (by simp) hserr] at hv
      have hbv : replacement_char_ = v := by simpa using hv
      subst hbv
      exact scalar_replacement
  | next4 =>
    have hc0 : c = 13 := hI.2
    subst hc0
    by_cases hcont : 0x80 ≤ b ∧ b < 0xA0
    · rw [decode_cont_step 13 p b State.next4 State.next1 (by simp)
        (ns_next4_cont hcont.1 hcont.2) (by simp) (by simp), cont_accum]
      exact ⟨inv_next1 _ (by omega) (by omega), fun v hv => by simp at hv⟩
    · have hserr := ns_next4_err hb hcont
      refine ⟨inv_interrupt 13 State.next4 p b hb (by simp) hserr, fun v hv => ?_⟩
      rw [decode_interrupt_fst 13 State.next4 p b hb (by simp) hserr] at hv
      have hbv : replacement_char_ = v := by simpa using hv
      subst hbv
      exact scalar_replacement
  | next5 =>
    have hc0 : c = 0 := hI.2
    subst hc0
    by_cases hcont : 0x90 ≤ b ∧ b < 0xC0
    · rw [decode_cont_step 0 p b State.next5 State.next2 (by simp)
        (ns_next5_cont hcont.1 hcont.2) (by simp) (by simp), cont_accum]
      exact ⟨inv_next2 _ (by omega) (by omega), fun v hv => by simp at hv⟩
    · have hserr := ns_next5_err hb hcont
      refine ⟨inv_interrupt 0 State.next5 p b hb (by simp) hserr, fun v hv => ?_⟩
      rw [decode_interrupt_fst 0 State.next5 p b hb (by simp) hserr] at hv
      have hbv : replacement_char_ = v := by simpa using hv
      subst hbv
      exact scalar_replacement
  | next6 =>
    have hb1 : 1 ≤ c := hI.2.1
    have hb2 : c ≤ 3 := hI.2.2
    by_cases hcont : 0x80 ≤ b ∧ b < 0xC0
    · rw [decode_cont_step c p b State.next6 State.next2 (by simp)
        (ns_next6_cont hcont.1 hcont.2) (by simp) (by simp), cont_accum]
      exact ⟨inv_next2 _ (by omega) (by omega), fun v hv => by simp at hv⟩
    · have hserr := ns_next6_err hb hcont
      refine ⟨inv_interrupt c State.next6 p b hb (by simp) hserr, fun v hv => ?_⟩
      rw [decode_interrupt_fst c State.next6 p b hb (by simp) hserr] at hv
      have hbv : replacement_char_ = v := by simpa using hv
      subst hbv
      exact scalar_replacement
  | next7 =>
    have hc0 : c = 4 := hI.2
    subst hc0
    by_cases hcont : 0x80 ≤ b ∧ b < 0x90
    · rw [decode_cont_step 4 p b State.next7 State.next2 (by simp)
        (ns_next7_cont hcont.1 hcont.2) (by simp) (by simp), cont_accum]
      exact ⟨inv_next2 _ (by omega) (by omega), fun v hv => by simp at hv⟩
    · have hserr := ns_next7_err hb hcont
      refine ⟨inv_interrupt 4 State.next7 p b hb (by simp) hserr, fun v hv => ?_⟩
      rw [decode_interrupt_fst 4 State.next7 p b hb (by simp) hserr] at hv
      have hbv : replacement_char_ = v := by simpa using hv
      subst hbv
      exact scalar_replacement

theorem inv_initDecoder : Inv initDecoder := by
  rw [initDecoder_eq]
  exact inv_start_nothing 0

/-- `fetch` preserves the invariant. -/
theorem fetch_inv (d : Decoder) (hI : Inv d) : Inv (d.fetch).2 := by
  obtain ⟨c, s, p⟩ := d
  obtain ⟨_, h2⟩ := hI
  exact ⟨fun h => ToDeliver.noConfusion h, h2⟩

/-- `fetch` only produces scalar values from invariant states. -/
theorem fetch_out (d : Decoder) (hI : Inv d) :
    ∀ v, (d.fetch).1 = some v → ScalarValue v := by
  obtain ⟨c, s, p⟩ := d
  cases p with
  | nothing => intro v hv; rw [fetch_nothing] at hv; cases hv
  | code_point =>
    intro v hv
    rw [fetch_code] at hv
    have hbv : c = v := by simpa using hv
    subst hbv
    have hlt : c < 0x80 := (hI.1 rfl).1
    unfold ScalarValue
    omega
  | error =>
    intro v hv
    rw [fetch_err] at hv
    have hbv : replacement_char_ = v := by simpa using hv
    subst hbv
    exact scalar_replacement

/-- `check_last_error` only ever produces the replacement character. -/
theorem cle_out (d : Decoder) :
    ∀ v, d.check_last_error = some v → v = replacement_char_ := by
  intro v hv
  unfold Decoder.check_last_error at hv
  by_cases h : d.state_ = State.start
  · simp [h] at hv
  · simp [h] at hv
    exact hv.symm

theorem driveOut_cons (d : Decoder) (b : Nat) (rest : List Nat) :
    driveOut d (b :: rest) =
      (d.decode b).1.toList ++ ((d.decode b).2.fetch).1.toList ++
        driveOut ((d.decode b).2.fetch).2 rest := by
  rw [driveOut_eq, driveOut_eq, driveRun_cons]
  simp [List.append_assoc]

/-- Every value emitted by the driving protocol from an invariant state is a
scalar value. -/
theorem driveOut_out (B : List Nat) : ∀ (hB : ∀ u ∈ B, u < 256) (d : Decoder), Inv d →
    ∀ v ∈ driveOut d B, ScalarValue v := by
  induction B with
  | nil =>
    intro hB d hI v hv
    rw [driveOut_eq] at hv
    simp only [driveRun, List.nil_append] at hv
    cases h : d.check_last_error with
    | none => rw [h] at hv; simp at hv
    | some w =>
      rw [h] at hv
      simp at hv
      subst hv
      have hw := cle_out d v h
      subst hw
      exact scalar_replacement
  | cons b rest ih =>
    intro hB d hI v hv
    rw [driveOut_cons] at hv
    have hb : b < 256 := hB b (by simp)
    obtain ⟨hI', hout⟩ := inv_decode_out d b hb hI
    rcases List.mem_append.mp hv with hv' | hv2
    · rcases List.mem_append.mp hv' with h1 | h2
      · cases ho : (d.decode b).1 with
        | none => rw [ho] at h1; simp at h1
        | some w =>
          rw [ho] at h1
          simp at h1
          subst h1
          exact hout v ho
      · cases ho : ((d.decode b).2.fetch).1 with
        | none => rw [ho] at h2; simp at h2
        | some w =>
          rw [ho] at h2
          simp at h2
          subst h2
          exact fetch_out (d.decode b).2 hI' v ho
    · exact ih (fun u hu => hB u (by simp [hu])) _ (fetch_inv _ hI') v hv2

/-- `runDecoder` preserves the invariant. -/
theorem inv_runDecoder (B : List Nat) :
    ∀ (hB : ∀ u ∈ B, u < 256) (d : Decoder), Inv d → Inv (runDecoder d B) := by
  induction B with
  | nil => intro _ d hI; exact hI
  | cons b rest ih =>
    intro hB d hI
    rw [show runDecoder d (b :: rest) = runDecoder (d.decode b).2 rest from rfl]
    exact ih (fun u hu => hB u (by simp [hu])) _
      (inv_decode_out d b (hB b (by simp)) hI).1

/-! ## The decode view refines the driving protocol -/

theorem fetch_clears (d : Decoder) : (d.fetch).2.to_deliver_ = ToDeliver.nothing := by
  obtain ⟨c, s, p⟩ := d
  rfl

theorem fetch_of_nothing (d : Decoder) (h : d.to_deliver_ = ToDeliver.nothing) :
    d.fetch = (none, d) := by
  obtain ⟨c, s, p⟩ := d
  simp only at h
  subst h
  rfl

/-- `decode` sets no pending output when it returns nothing. -/
theorem decode_none_pending (d : Decoder) (b : Nat) (h : (d.decode b).1 = none) :
    (d.decode b).2.to_deliver_ = ToDeliver.nothing := by
  obtain ⟨c, s, p⟩ := d
  simp only [Decoder.decode] at h ⊢
  by_cases h1 : next_state s (charClass b) = State.error
  · rw [if_pos h1] at h ⊢
    by_cases h2 : s = State.start
    · rw [if_pos h2] at h; simp at h
    · rw [if_neg h2] at h ⊢
      cases h3 : next_state State.start (charClass b) <;> rw [h3] at h <;> simp at h
  · rw [if_neg h1]
    split_ifs <;> rfl

/-- `decodeMember` leaves a suffix of the input. -/
theorem decodeMember_suffix : ∀ (rem : List Nat) (dec : Decoder),
    (decodeMember dec rem).2.1.length ≤ rem.length := by
  intro rem
  induction rem with
  | nil => intro dec; simp [decodeMember]
  | cons b rest ih =>
    intro dec
    rcases hd : dec.decode b with ⟨o1, d1⟩
    cases o1 with
    | none =>
      have : decodeMember dec (b :: rest) = decodeMember d1 rest := by
        simp only [decodeMember, hd]
      rw [this]
      calc (decodeMember d1 rest).2.1.length ≤ rest.length := ih d1
        _ ≤ (b :: rest).length := by simp
    | some cv =>
      have : decodeMember dec (b :: rest) = (d1, b :: rest, some cv) := by
        simp only [decodeMember, hd]
      rw [this]

/-- The while loop in the iterator's `decode` corresponds to the driving
protocol: no value and an exhausted input, or a value with the loop stopped on
the producing byte. -/
theorem decodeMember_drive : ∀ (rem : List Nat) (dec d' : Decoder) (rem' : List Nat)
    (o : Option Nat), decodeMember dec rem = (d', rem', o) →
    (rem' = [] → o = none ∧ driveRun dec rem = ([], d')) ∧
    (∀ b' rest', rem' = b' :: rest' → ∃ cv, o = some cv ∧
      driveRun dec rem =
        (cv :: ((d'.fetch).1.toList ++ (driveRun (d'.fetch).2 rest').1),
         (driveRun (d'.fetch).2 rest').2)) := by
  intro rem
  induction rem with
  | nil =>
    intro dec d' rem' o h
    simp only [decodeMember] at h
    cases h
    exact ⟨fun _ => ⟨rfl, rfl⟩, fun b' rest' hbr => absurd hbr.symm (List.cons_ne_nil b' rest')⟩
  | cons b rest ih =>
    intro dec d' rem' o h
    rcases hd : dec.decode b with ⟨o1, d1⟩
    cases o1 with
    | some cv =>
      have he : decodeMember dec (b :: rest) = (d1, b :: rest, some cv) := by
        simp only [decodeMember, hd]
      rw [he] at h
      cases h
      refine ⟨fun hcon => absurd hcon (List.cons_ne_nil b rest), fun b' rest' hbr => ?_⟩
      cases hbr
      refine ⟨cv, rfl, ?_⟩
      rw [driveRun_cons, hd]
      simp
    | none =>
      have he : decodeMember dec (b :: rest) = decodeMember d1 rest := by
        simp only [decodeMember, hd]
      rw [he] at h
      have hpend : d1.to_deliver_ = ToDeliver.nothing := by
        have hh := decode_none_pending dec b (by rw [hd])
        rwa [hd] at hh
      have hdrive : driveRun dec (b :: rest) = driveRun d1 rest := by
        rw [driveRun_cons, hd]
        simp only []
        rw [fetch_of_nothing d1 hpend]
        simp
      obtain ⟨ihe, ihc⟩ := ih d1 d' rem' o h
      refine ⟨fun hnil => ?_, fun b' rest' hbr => ?_⟩
      · obtain ⟨ho, hr⟩ := ihe hnil
        exact ⟨ho, by rw [hdrive, hr]⟩
      · obtain ⟨cv, ho, hr⟩ := ihc b' rest' hbr
        exact ⟨cv, ho, by rw [hdrive, hr]⟩

/-- Exhausting the fuelled iterator from a freshly decoded state produces
exactly the protocol's outputs. -/
theorem collect_iterDecode : ∀ (n : Nat) (rem : List Nat), rem.length ≤ n →
    ∀ (dec : Decoder) (c₀ : Nat) (f : Nat), dec.to_deliver_ = ToDeliver.nothing →
    2 * rem.length + 2 ≤ f →
    collectFuel f (iterDecode ⟨rem, dec, c₀, false⟩) = driveOut dec rem := by
  intro n
  induction n with
  | zero =>
    intro rem hlen dec c₀ f hpend hf
    have hrem : rem = [] := List.eq_nil_of_length_eq_zero (by omega)
    subst hrem
    have hdm : decodeMember dec [] = (dec, [], none) := by simp [decodeMember]
    rw [driveOut_eq]
    simp only [driveRun, List.nil_append]
    cases hc : dec.check_last_error with
    | none =>
      have hit : iterDecode ⟨[], dec, c₀, false⟩ = ⟨[], dec, c₀, false⟩ := by
        simp [iterDecode, hdm, hc]
      rw [hit]
      obtain ⟨f1, rfl⟩ : ∃ f1, f = f1 + 1 := ⟨f - 1, by omega⟩
      simp [collectFuel, iterAtEnd]
    | some w =>
      have hit : iterDecode ⟨[], dec, c₀, false⟩ = ⟨[], dec, w, true⟩ := by
        simp [iterDecode, hdm, hc]
      rw [hit]
      obtain ⟨f1, rfl⟩ : ∃ f1, f = f1 + 1 := ⟨f - 1, by omega⟩
      obtain ⟨f2, rfl⟩ : ∃ f2, f1 = f2 + 1 := ⟨f1 - 1, by omega⟩
      simp [collectFuel, iterAtEnd, iterNext]
  | succ n ihn =>
    intro rem hlen dec c₀ f hpend hf
    rcases hdm : decodeMember dec rem with ⟨d', rem', o⟩
    obtain ⟨hend, hcons⟩ := decodeMember_drive rem dec d' rem' o hdm
    cases rem' with
    | nil =>
      obtain ⟨ho, hrun⟩ := hend rfl
      subst ho
      rw [driveOut_eq, hrun]
      simp only [List.nil_append]
      cases hc : d'.check_last_error with
      | none =>
        have hit : iterDecode ⟨rem, dec, c₀, false⟩ = ⟨[], d', c₀, false⟩ := by
          simp [iterDecode, hdm, hc]
        rw [hit]
        obtain ⟨f1, rfl⟩ : ∃ f1, f = f1 + 1 := ⟨f - 1, by omega⟩
        simp [collectFuel, iterAtEnd]
      | some w =>
        have hit : iterDecode ⟨rem, dec, c₀, false⟩ = ⟨[], d', w, true⟩ := by
          simp [iterDecode, hdm, hc]
        rw [hit]
        obtain ⟨f1, rfl⟩ : ∃ f1, f = f1 + 1 := ⟨f - 1, by omega⟩
        obtain ⟨f2, rfl⟩ : ∃ f2, f1 = f2 + 1 := ⟨f1 - 1, by omega⟩
        simp [collectFuel, iterAtEnd, iterNext]
    | cons b' rest' =>
      obtain ⟨cv, ho, hrun⟩ := hcons b' rest' rfl
      subst ho
      have hsuf : rest'.length + 1 ≤ rem.length := by
        have hh := decodeMember_suffix rem dec
        rw [hdm] at hh
        simpa using hh
      have hit : iterDecode ⟨rem, dec, c₀, false⟩ = ⟨b' :: rest', d', cv, false⟩ := by
        simp [iterDecode, hdm]
      rw [hit]
      obtain ⟨f1, rfl⟩ : ∃ f1, f = f1 + 1 := ⟨f - 1, by omega⟩
      rw [show collectFuel (f1 + 1) ⟨b' :: rest', d', cv, false⟩ =
        cv :: collectFuel f1 (iterNext ⟨b' :: rest', d', cv, false⟩) from by
          simp [collectFuel, iterAtEnd]]
      rw [driveOut_eq, hrun]
      simp only []
      rcases hfd : d'.fetch with ⟨o2, d2⟩
      have hd2p : d2.to_deliver_ = ToDeliver.nothing := by
        have hh := fetch_clears d'
        rwa [hfd] at hh
      cases o2 with
      | none =>
        have hnext : iterNext ⟨b' :: rest', d', cv, false⟩ =
            iterDecode ⟨rest', d2, cv, false⟩ := by
          simp [iterNext, try_decode_one, hfd]
        rw [hnext, ihn rest' (by omega) d2 cv f1 hd2p (by omega)]
        rw [driveOut_eq]
        simp
      | some c2 =>
        have hnext : iterNext ⟨b' :: rest', d', cv, false⟩ =
            (⟨b' :: rest', d2, c2, false⟩ : Iter) := by
          simp [iterNext, try_decode_one, hfd]
        rw [hnext]
        obtain ⟨f2, rfl⟩ : ∃ f2, f1 = f2 + 1 := ⟨f1 - 1, by omega⟩
        rw [show collectFuel (f2 + 1) ⟨b' :: rest', d2, c2, false⟩ =
          c2 :: collectFuel f2 (iterNext ⟨b' :: rest', d2, c2, false⟩) from by
            simp [collectFuel, iterAtEnd]]
        have hnext2 : iterNext ⟨b' :: rest', d2, c2, false⟩ =
            iterDecode ⟨rest', d2, c2, false⟩ := by
          simp [iterNext, try_decode_one, fetch_of_nothing d2 hd2p]
        rw [hnext2, ihn rest' (by omega) d2 c2 f2 hd2p (by omega)]
        rw [driveOut_eq]
        simp

/-- The decode view's output equals the reference driving protocol's output. -/
theorem viewOut_eq_driveOut (B : List Nat) : viewOut B = driveOut initDecoder B := by
  unfold viewOut iterBegin
  exact collect_iterDecode B.length B (le_refl _) initDecoder 0 (2 * B.length + 2)
    rfl (le_refl _)

/-! ## Claim theorems -/

/-- C1: for every sequence `C` of Unicode scalar values, driving the decoder
over the UTF-8 encoding of `C` — fetch after each decode, `check_last_error`
once at the end — yields exactly `C`; the decode/fetch phase alone already
yields exactly `C` and the final `check_last_error` returns nothing. -/
theorem C1_wellformed_roundtrip (C : List Nat) (hC : ∀ c ∈ C, ScalarValue c) :
    driveOut initDecoder (Utf8EncodeList C) = C ∧
    (driveRun initDecoder (Utf8EncodeList C)).1 = C ∧
    (driveRun initDecoder (Utf8EncodeList C)).2.check_last_error = none := by
  rw [initDecoder_eq]
  obtain ⟨h1, h2⟩ := driveRun_encodeList C hC 0 ToDeliver.nothing
  have hcle :
      (driveRun ⟨0, State.start, ToDeliver.nothing⟩ (Utf8EncodeList C)).2.check_last_error
        = none := by
    simp [Decoder.check_last_error, h2]
  refine ⟨?_, h1, hcle⟩
  rw [driveOut_eq, h1, hcle]
  simp

/-- C1 witness at the concrete scalar sequence
`[0x61, 0xA3, 0x418, 0x939, 0x20AC, 0xD55C, 0x10348]`. -/
theorem C1_wellformed_roundtrip_witness :
    (∀ c ∈ [0x61, 0xA3, 0x418, 0x939, 0x20AC, 0xD55C, 0x10348], ScalarValue c) ∧
    driveOut initDecoder
        (Utf8EncodeList [0x61, 0xA3, 0x418, 0x939, 0x20AC, 0xD55C, 0x10348]) =
      [0x61, 0xA3, 0x418, 0x939, 0x20AC, 0xD55C, 0x10348] :=
  ⟨by decide,
   (C1_wellformed_roundtrip [0x61, 0xA3, 0x418, 0x939, 0x20AC, 0xD55C, 0x10348]
      (by decide)).1⟩

/-- C2: for every byte sequence, the driving protocol produces exactly the
spec's maximal-subpart decoding: each maximal ill-formed subpart (including a
truncated trailing sequence) contributes exactly one `U+FFFD`, and well-formed
parts decode to their scalars. -/
theorem C2_maximal_subparts (B : List Nat) (hB : ∀ b ∈ B, b < 256) :
    driveOut initDecoder B = utf8Spec B := by
  rw [initDecoder_eq]
  exact driveOut_eq_utf8Spec_aux B.length B (le_refl _) hB 0 ToDeliver.nothing

/-- C2 witness on `F4 8F BF 22` (interrupted 4-byte maximal subpart, then a
quote): one replacement, then `0x22`. -/
theorem C2_maximal_subparts_witness :
    (∀ b ∈ [0xF4, 0x8F, 0xBF, 0x22], b < 256) ∧
    driveOut initDecoder [0xF4, 0x8F, 0xBF, 0x22] = utf8Spec [0xF4, 0x8F, 0xBF, 0x22] ∧
    utf8Spec [0xF4, 0x8F, 0xBF, 0x22] = [0xFFFD, 0x22] :=
  ⟨by decide, C2_maximal_subparts [0xF4, 0x8F, 0xBF, 0x22] (by decide), by decide⟩

/-- C6: `check_last_error` is pure — in this embedding it is typed
`Decoder → Option Nat`, returning no updated decoder, mirroring the C++
`const` member — and it returns `U+FFFD` iff the state is not `start` (hence
any number of repeated calls yields the same result and leaves the decoder
unchanged). -/
theorem C6_check_last_error (d : Decoder) :
    (d.check_last_error = some replacement_char_ ↔ d.state_ ≠ State.start) ∧
    (d.check_last_error = none ↔ d.state_ = State.start) := by
  unfold Decoder.check_last_error
  by_cases h : d.state_ = State.start <;> simp [h]

set_option maxRecDepth 4000 in
/-- C7: `fetch` returns the pending secondary output set by the last decode
and clears it, returns nothing when nothing is pending, and a second `fetch`
always returns nothing; on the concrete run `C2 20`, `decode 0xC2` returns
nothing, `decode 0x20` returns `U+FFFD` and the following `fetch` returns
`0x20`. -/
theorem C7_fetch_drains_pending (d : Decoder) :
    (d.to_deliver_ = ToDeliver.code_point → (d.fetch).1 = some d.code_) ∧
    (d.to_deliver_ = ToDeliver.error → (d.fetch).1 = some replacement_char_) ∧
    (d.to_deliver_ = ToDeliver.nothing → (d.fetch).1 = none) ∧
    (d.fetch).2.to_deliver_ = ToDeliver.nothing ∧
    (d.fetch).2.code_ = d.code_ ∧
    (d.fetch).2.state_ = d.state_ ∧
    ((d.fetch).2.fetch).1 = none ∧
    (initDecoder.decode 0xC2).1 = none ∧
    (((initDecoder.decode 0xC2).2).decode 0x20).1 = some replacement_char_ ∧
    (((((initDecoder.decode 0xC2).2).decode 0x20).2).fetch).1 = some 0x20 := by
  obtain ⟨c, s, p⟩ := d
  cases p <;> exact ⟨by intro h; first | rfl | exact absurd h (by simp),
    by intro h; first | rfl | exact absurd h (by simp),
    by intro h; first | rfl | exact absurd h (by simp),
    rfl, rfl, rfl, rfl, by decide, by decide, by decide⟩

/-- C7 witness at a decoder with a pending code point `0x20`. -/
theorem C7_fetch_drains_pending_witness :
    ((Decoder.mk 0x20 State.start ToDeliver.code_point).fetch).1 = some 0x20 :=
  (C7_fetch_drains_pending ⟨0x20, State.start, ToDeliver.code_point⟩).1 rfl

/-- C5: every value produced by `decode`, `fetch` or `check_last_error` under
the driving protocol is a Unicode scalar value: never a surrogate, never above
`U+10FFFF`. -/
theorem C5_outputs_are_scalars (B : List Nat) (hB : ∀ u ∈ B, u < 256) :
    ∀ v ∈ driveOut initDecoder B, v < 0x110000 ∧ ¬(0xD800 ≤ v ∧ v ≤ 0xDFFF) := by
  intro v hv
  have h := driveOut_out B hB initDecoder inv_initDecoder v hv
  unfold ScalarValue at h
  exact h

set_option maxRecDepth 4000 in
/-- C5 witness on the ill-formed input `ED A0 80` (a surrogate encoding): all
outputs are scalar values. -/
theorem C5_outputs_are_scalars_witness :
    0xFFFD ∈ driveOut initDecoder [0xED, 0xA0, 0x80] ∧
    0xFFFD < 0x110000 ∧ ¬(0xD800 ≤ 0xFFFD ∧ 0xFFFD ≤ 0xDFFF) :=
  ⟨by decide,
   C5_outputs_are_scalars [0xED, 0xA0, 0x80] (by decide) 0xFFFD (by decide)⟩

/-- C10: after decoding any byte sequence, whenever the pending secondary
output is a code point it is an ASCII scalar below `0x80`; hence `fetch` never
returns a multi-byte-encoded scalar — only ASCII values or `U+FFFD`. -/
theorem C10_pending_code_point_is_ascii (B : List Nat) (hB : ∀ u ∈ B, u < 256) :
    ((runDecoder initDecoder B).to_deliver_ = ToDeliver.code_point →
      (runDecoder initDecoder B).code_ < 0x80) ∧
    (∀ v, ((runDecoder initDecoder B).fetch).1 = some v →
      v < 0x80 ∨ v = replacement_char_) := by
  have hI := inv_runDecoder B hB initDecoder inv_initDecoder
  refine ⟨fun h => (hI.1 h).1, fun v hv => ?_⟩
  rcases hd : runDecoder initDecoder B with ⟨c, s, p⟩
  rw [hd] at hv hI
  cases p with
  | nothing => rw [fetch_nothing] at hv; cases hv
  | code_point =>
    rw [fetch_code] at hv
    have hbv : c = v := by simpa using hv
    subst hbv
    exact Or.inl (hI.1 rfl).1
  | error =>
    rw [fetch_err] at hv
    have hbv : replacement_char_ = v := by simpa using hv
    subst hbv
    exact Or.inr rfl

set_option maxRecDepth 4000 in
/-- C10 witness: after `C2 20` the pending output is the ASCII code point
`0x20`. -/
theorem C10_pending_code_point_is_ascii_witness :
    (runDecoder initDecoder [0xC2, 0x20]).to_deliver_ = ToDeliver.code_point ∧
    (runDecoder initDecoder [0xC2, 0x20]).code_ < 0x80 :=
  ⟨by decide,
   (C10_pending_code_point_is_ascii [0xC2, 0x20] (by decide)).1 (by decide)⟩

/-- C4: when a multi-byte sequence in progress is interrupted (the FSM errors
from a non-`start`, non-`error` state), `decode` returns `U+FFFD` for the
interrupted sequence and re-classifies the interrupting byte from `start`:
stray byte — state `start`, a second `U+FFFD` pending; single-byte scalar —
accumulator holds its payload, left pending; new multi-byte lead — state
becomes that lead's state with its payload, nothing pending. -/
theorem C4_interrupt_restart (d : Decoder) (b : Nat) (hb : b < 256)
    (h0 : d.state_ ≠ State.start) (h0e : d.state_ ≠ State.error)
    (hs : next_state d.state_ (charClass b) = State.error) :
    (d.decode b).1 = some replacement_char_ ∧
    (next_state State.start (charClass b) = State.error →
      (d.decode b).2.state_ = State.start ∧
      (d.decode b).2.to_deliver_ = ToDeliver.error) ∧
    (next_state State.start (charClass b) = State.start →
      (d.decode b).2.code_ = start_byte_payload b (charClass b) ∧
      (d.decode b).2.state_ = State.start ∧
      (d.decode b).2.to_deliver_ = ToDeliver.code_point ∧
      ((d.decode b).2.fetch).1 = some (start_byte_payload b (charClass b))) ∧
    (∀ s', next_state State.start (charClass b) = s' →
      s' ≠ State.error → s' ≠ State.start →
      (d.decode b).2.state_ = s' ∧
      (d.decode b).2.code_ = start_byte_payload b (charClass b) ∧
      (d.decode b).2.to_deliver_ = ToDeliver.nothing) := by
  obtain ⟨c, s, p⟩ := d
  simp only at h0 h0e hs
  by_cases hE : next_state State.start (charClass b) = State.error
  · rw [decode_interrupt_stray c p b s h0 hs hE]
    refine ⟨rfl, fun _ => ⟨rfl, rfl⟩, fun hcon => ?_, fun s' h1 h2 h3 => ?_⟩
    · rw [hE] at hcon; exact absurd hcon (by simp)
    · rw [hE] at h1; exact absurd h1.symm h2
  by_cases hS0 : next_state State.start (charClass b) = State.start
  · have h12 : charClass b < 12 := (cc_inv_cont hb).1
    rcases ns_start0 (charClass b) h12 with ht | hne
    · have hb0 : b < 0x80 := (cc_eq0 hb).mp ht
      rw [decode_interrupt_ascii c p b s h0 hs hb0]
      have hpay : start_byte_payload b (charClass b) = b := by
        rw [ht, payload0]; omega
      refine ⟨rfl, fun hcon => ?_, fun _ => ⟨by rw [hpay], rfl, rfl, ?_⟩,
        fun s' h1 h2 h3 => ?_⟩
      · rw [hS0] at hcon; exact absurd hcon (by simp)
      · rw [fetch_code, hpay]
      · rw [hS0] at h1; exact absurd h1.symm h3
    · exact absurd hS0 hne
  · rw [decode_interrupt_lead c p b s _ h0 hs rfl hE hS0]
    refine ⟨rfl, fun hcon => absurd hcon hE, fun hcon => absurd hcon hS0,
      fun s' h1 h2 h3 => ⟨h1, rfl, rfl⟩⟩

/-- C4 witness: state `next1` (after `C2`) interrupted by the stray
continuation start `C0` (class 8): `U+FFFD` now, error pending. -/
theorem C4_interrupt_restart_witness :
    ((Decoder.mk 2 State.next1 ToDeliver.nothing).decode 0xC0).1 =
      some replacement_char_ ∧
    ((Decoder.mk 2 State.next1 ToDeliver.nothing).decode 0xC0).2.state_ =
      State.start ∧
    ((Decoder.mk 2 State.next1 ToDeliver.nothing).decode 0xC0).2.to_deliver_ =
      ToDeliver.error := by
  have h := C4_interrupt_restart ⟨2, State.next1, ToDeliver.nothing⟩ 0xC0 (by omega)
    (by simp) (by simp) (by rw [cc_c0c1 (by omega) (by omega)]; rfl)
  have he : next_state State.start (charClass 0xC0) = State.error := by
    rw [cc_c0c1 (by omega) (by omega)]; rfl
  exact ⟨h.1, (h.2.1 he).1, (h.2.1 he).2⟩

/-- C8: from `start`, a class-0 byte decodes to itself; a byte of class 1, 7,
8 or 9 decodes to `U+FFFD` with the state remaining `start`; every other byte
(a valid multi-byte lead) produces no output.  With `charClass b < 12` these
three cases are exhaustive, so no other single-byte outcome from `start` is
possible. -/
theorem C8_single_byte_at_start (d : Decoder) (h : d.state_ = State.start)
    (b : Nat) (hb : b < 256) :
    (charClass b = 0 → d.decode b = (some b, ⟨b, State.start, ToDeliver.nothing⟩)) ∧
    ((charClass b = 1 ∨ charClass b = 7 ∨ charClass b = 8 ∨ charClass b = 9) →
      (d.decode b).1 = some replacement_char_ ∧
      (d.decode b).2.state_ = State.start) ∧
    (charClass b ≠ 0 → charClass b ≠ 1 → charClass b ≠ 7 → charClass b ≠ 8 →
      charClass b ≠ 9 → (d.decode b).1 = none) := by
  obtain ⟨c, s, p⟩ := d
  simp only at h
  subst h
  refine ⟨fun hc => ?_, fun hc => ?_, fun k0 k1 k7 k8 k9 => ?_⟩
  · exact decode_start_ascii c p b ((cc_eq0 hb).mp hc)
  · have hserr : next_state State.start (charClass b) = State.error := by
      rcases hc with hc | hc | hc | hc <;> rw [hc] <;> rfl
    rw [decode_start_err c p b hserr]
    exact ⟨rfl, rfl⟩
  · have h12 : charClass b < 12 := (cc_inv_cont hb).1
    have hcases : charClass b = 2 ∨ charClass b = 3 ∨ charClass b = 4 ∨
        charClass b = 5 ∨ charClass b = 6 ∨ charClass b = 10 ∨ charClass b = 11 := by
      omega
    rcases hcases with hc | hc | hc | hc | hc | hc | hc
    · rw [decode_start_lead c p b State.next1 (by rw [hc]; rfl) (by simp) (by simp)]
    · rw [decode_start_lead c p b State.next2 (by rw [hc]; rfl) (by simp) (by simp)]
    · rw [decode_start_lead c p b State.next4 (by rw [hc]; rfl) (by simp) (by simp)]
    · rw [decode_start_lead c p b State.next7 (by rw [hc]; rfl) (by simp) (by simp)]
    · rw [decode_start_lead c p b State.next6 (by rw [hc]; rfl) (by simp) (by simp)]
    · rw [decode_start_lead c p b State.next3 (by rw [hc]; rfl) (by simp) (by simp)]
    · rw [decode_start_lead c p b State.next5 (by rw [hc]; rfl) (by simp) (by simp)]

/-- C8 witness: `0x41` decodes to itself, `0x80` to `U+FFFD`, `0xC2` to
nothing, from a fresh decoder. -/
theorem C8_single_byte_at_start_witness :
    (initDecoder.decode 0x41).1 = some 0x41 ∧
    (initDecoder.decode 0x80).1 = some replacement_char_ ∧
    (initDecoder.decode 0xC2).1 = none := by
  refine ⟨?_, ?_, ?_⟩
  · have h := (C8_single_byte_at_start initDecoder rfl 0x41 (by omega)).1
      (by rw [cc_ascii (by omega)])
    rw [initDecoder_eq] at h ⊢
    rw [h]
  · exact ((C8_single_byte_at_start initDecoder rfl 0x80 (by omega)).2.1
      (Or.inl (cc_cont_lo (by omega) (by omega)))).1
  · exact (C8_single_byte_at_start initDecoder rfl 0xC2 (by omega)).2.2
      (by rw [cc_lead2 (by omega) (by omega)]; omega)
      (by rw [cc_lead2 (by omega) (by omega)]; omega)
      (by rw [cc_lead2 (by omega) (by omega)]; omega)
      (by rw [cc_lead2 (by omega) (by omega)]; omega)
      (by rw [cc_lead2 (by omega) (by omega)]; omega)

set_option maxRecDepth 4000 in
/-- C9: the decoder's operations are total: every byte's class is below 12
(and every byte indexes the 256-entry class table), the transition-table index
is always in range for every non-error state and class, and `decode` never
moves the stored state to the `error` state — so the bounds-checked lookups in
the source never throw. -/
theorem C9_total_no_failure :
    char_classes_.length = 256 ∧
    fsm_.length = 96 ∧
    (∀ b, b < 256 → charClass b < 12) ∧
    (∀ s : State, s ≠ State.error → ∀ t, t < 12 →
      s.idx * num_classes_ + t < fsm_.length) ∧
    (∀ (d : Decoder) (b : Nat), d.state_ ≠ State.error →
      (d.decode b).2.state_ ≠ State.error) := by
  refine ⟨rfl, rfl, fun b hb => (cc_inv_cont hb).1, ?_, ?_⟩
  · intro s hs t ht
    rw [show fsm_.length = 96 from rfl]
    cases s with
    | error => exact absurd rfl hs
    | start => simp only [State.idx, num_classes_]; omega
    | next1 => simp only [State.idx, num_classes_]; omega
    | next2 => simp only [State.idx, num_classes_]; omega
    | next3 => simp only [State.idx, num_classes_]; omega
    | next4 => simp only [State.idx, num_classes_]; omega
    | next5 => simp only [State.idx, num_classes_]; omega
    | next6 => simp only [State.idx, num_classes_]; omega
    | next7 => simp only [State.idx, num_classes_]; omega
  · intro d b hd
    obtain ⟨c, s, p⟩ := d
    simp only [Decoder.decode]
    by_cases h1 : next_state s (charClass b) = State.error
    · rw [if_pos h1]
      by_cases h2 : s = State.start
      · rw [if_pos h2]
        simpa using hd
      · rw [if_neg h2]
        cases h3 : next_state State.start (charClass b) <;> simp
    · rw [if_neg h1]
      split_ifs <;> simpa using h1

/-- C3: for every input byte range `B`, the lazy code-point sequence produced
by iterating the decode view over `B` equals the sequence produced by the
reference driving protocol on a fresh decoder (per byte: decode, emit its
value if any, then emit fetch's value if any; after the last byte, emit
`check_last_error`'s value if any) — so in particular the view never loses
the second code point of a double-output byte — and an iterator compares
equal to the end sentinel iff the underlying byte iterator has reached its
sentinel and the `has_last_error_` flag is false. -/
theorem C3_view_refines_protocol :
    (∀ B : List Nat, viewOut B = driveOut initDecoder B) ∧
    (∀ it : Iter, iterAtEnd it = true ↔ (it.rem = [] ∧ it.has_last_error_ = false)) := by
  refine ⟨viewOut_eq_driveOut, fun it => ?_⟩
  obtain ⟨rem, dec, c, e⟩ := it
  simp [iterAtEnd, List.isEmpty_iff]

end Utf8
